import Mathlib

/-!
Shallow embedding of the zevalizer core (Go) for verification.

Conventions of the embedding:
* `time.Time` values are modelled at one-second granularity as integers;
  calendar days (midnight-normalized times) are modelled as integer day
  indices.  `NormalizeDate` becomes `dayOf` (floor division by 86400) on
  timestamps; values that the Go code keeps in normalized form (cache
  range bounds, cache keys) are carried directly as day indices.
  `AddDate(0,0,n)` on a normalized time is `+ n` days.
* `float64` energy values are modelled as rationals (`ℚ`): the claims under
  study are either exact identities of the arithmetic the code performs or
  sign/bound conditions, so the rational model is the faithful idealization.
* Go maps are modelled as association lists in deterministic (insertion)
  order.  The observable behaviour proved about never depends on Go's
  randomized map iteration order (per-key contents, sums of values,
  per-key updates).
* `time.Now()` is threaded explicitly: functions that call `Today()` in Go
  take `today : Int` as a parameter.
* Fallible calls (`error` returns) are modelled with `Except String`.
-/

namespace Zevalizer

/-- Model of `NormalizeDate` (src/internal/cache/types.go): truncate a
seconds-since-epoch timestamp to the index of the calendar day containing
it. -/
def dayOf (t : Int) : Int := Int.fdiv t 86400

/-- First second of a day (used by the fetcher to build `gap.Start`-style
request bounds). -/
def dayStart (d : Int) : Int := d * 86400

/-- Last second of a day (the fetcher requests up to 23:59:59 of the gap
end day). -/
def dayEnd (d : Int) : Int := d * 86400 + 86399

/-- `DateRange` (src/internal/cache/types.go): inclusive day range, both
bounds normalized.  `End` is a Lean keyword, so the field is `stop`. -/
structure DateRange where
  start : Int
  stop : Int
deriving DecidableEq, Repr

/-- The documented invariant on a `DateRange`: `Start <= End`. -/
def DateRange.Valid (r : DateRange) : Prop := r.start ≤ r.stop

instance (r : DateRange) : Decidable r.Valid := by
  unfold DateRange.Valid; infer_instance

/-- `DateRange.Contains` (src/internal/cache/types.go): day-granular
membership `!d.Before(r.Start) && !d.After(r.End)`. -/
def DateRange.mem (r : DateRange) (d : Int) : Prop := r.start ≤ d ∧ d ≤ r.stop

instance (r : DateRange) (d : Int) : Decidable (r.mem d) := by
  unfold DateRange.mem; infer_instance

/-- `DateRange.Overlaps` (src/internal/cache/types.go):
`!r.End.Before(other.Start) && !other.End.Before(r.Start)`. -/
def DateRange.OverlapsR (r o : DateRange) : Prop := o.start ≤ r.stop ∧ r.start ≤ o.stop

instance (r o : DateRange) : Decidable (r.OverlapsR o) := by
  unfold DateRange.OverlapsR; infer_instance

/-- A day is covered by a list of ranges if it lies in one of them. -/
def coveredBy (l : List DateRange) (d : Int) : Prop := ∃ r ∈ l, r.mem d

/-- Ordering used by `MergeRanges`'s `sort.Slice` call (compare `Start`). -/
def leStart (a b : DateRange) : Prop := a.start ≤ b.start

instance : DecidableRel leStart := fun a b => by
  unfold leStart; infer_instance

instance : IsTotal DateRange leStart := ⟨fun a b => Int.le_total a.start b.start⟩

instance : IsTrans DateRange leStart := ⟨fun _ _ _ h h' => le_trans h h'⟩

/-- The sort step of `MergeRanges`: `sort.Slice` by `Start.Before`. -/
def sortByStart (l : List DateRange) : List DateRange :=
  l.insertionSort leStart

/-- The fold step of `MergeRanges` (src/internal/cache/types.go lines
98-114): `last` is the range currently being extended; a range starting at
or before `last.End + 1 day` is merged into it (its `End` extends `last` if
larger), anything later opens a new range. -/
def mergeAux (last : DateRange) : List DateRange → List DateRange
  | [] => [last]
  | c :: rest =>
    if c.start ≤ last.stop + 1 then
      mergeAux ⟨last.start, max last.stop c.stop⟩ rest
    else
      last :: mergeAux c rest

/-- `MergeRanges` (src/internal/cache/types.go): sort by start, then fold,
merging overlapping or adjacent ranges. -/
def MergeRanges (l : List DateRange) : List DateRange :=
  match sortByStart l with
  | [] => []
  | h :: t => mergeAux h t

/-- `subtractRange` (src/internal/cache/types.go): remove `cut` from
`base`, returning the 0, 1 or 2 remaining pieces. -/
def subtractRange (base cut : DateRange) : List DateRange :=
  if base.OverlapsR cut then
    (if base.start < cut.start then [⟨base.start, cut.start - 1⟩] else []) ++
    (if cut.stop < base.stop then [⟨cut.stop + 1, base.stop⟩] else [])
  else
    [base]

/-- `FindGaps` (src/internal/cache/types.go): ranges of `[from,to]` not
covered by `cached`, always excluding today.  `fromD`/`toD` are the
normalized (day-index) request bounds. -/
def FindGaps (today : Int) (cached : List DateRange) (fromD toD : Int) : List DateRange :=
  let toC := if today ≤ toD then today - 1 else toD
  if toC < fromD then []
  else cached.foldl (fun gaps c => gaps.flatMap (fun g => subtractRange g c)) [⟨fromD, toC⟩]

/- ===================== Cache data model ===================== -/

/-- One `ZevSensorData` point (models/types.go): a timestamped pair of
cumulative purchase/delivery counters (tariff-1 registers). -/
structure ZevSensorData where
  createdAt : Int
  purchase : ℚ
  delivery : ℚ
deriving DecidableEq, Repr

/-- `ZevData` (models/types.go): one sensor's list of points. -/
structure ZevData where
  sensorID : String
  data : List ZevSensorData
deriving DecidableEq, Repr

/-- One battery `SensorData` point (models/types.go): timestamp plus
per-sample charge/discharge energies in Wh. -/
structure SensorData where
  date : Int
  batteryChargeWh : ℚ
  batteryDischargeWh : ℚ
deriving DecidableEq, Repr

/-- The day-and-sensor keyed ZEV store
(`ZevDataCache.Data : map[date]map[sensorID][]ZevSensorData`), modelled as
an association list in insertion order. -/
abbrev ZevStore := List ((Int × String) × List ZevSensorData)

/-- The sensor-and-day keyed battery store
(`SensorDataCache.Data : map[sensorID]map[date][]SensorData`). -/
abbrev SensorStore := List ((String × Int) × List SensorData)

/-- Lookup of one bucket of an association-list store (empty if absent). -/
def bucketGet {κ : Type} [DecidableEq κ] {α : Type} (m : List (κ × List α)) (k : κ) : List α :=
  match m with
  | [] => []
  | (k', v) :: rest => if k' = k then v else bucketGet rest k

/-- Append one element to a bucket, creating the bucket if absent (model of
`m[k] = append(m[k], x)` on nested Go maps). -/
def bucketApp {κ : Type} [DecidableEq κ] {α : Type} (m : List (κ × List α)) (k : κ) (x : α) :
    List (κ × List α) :=
  match m with
  | [] => [(k, [x])]
  | (k', v) :: rest => if k' = k then (k', v ++ [x]) :: rest else (k', v) :: bucketApp rest k x

/-- `Cache` (src/internal/cache/types.go): the two day-keyed stores plus
their cached-range lists (metadata omitted: no claim concerns it). -/
structure Cache where
  zevData : ZevStore
  zevCachedRanges : List DateRange
  sensorData : SensorStore
  sensorCachedRanges : List (String × List DateRange)

/-- The cached-range list of one battery sensor
(`SensorData.CachedRanges[sensorID]`, empty when absent). -/
def Cache.rangesOf (c : Cache) (sid : String) : List DateRange :=
  match c.sensorCachedRanges.find? (fun e => e.1 == sid) with
  | some e => e.2
  | none => []

/-- Replace (or create) one sensor's cached-range list. -/
def setRanges (m : List (String × List DateRange)) (sid : String) (rs : List DateRange) :
    List (String × List DateRange) :=
  match m with
  | [] => [(sid, rs)]
  | (k, v) :: rest => if k = sid then (k, rs) :: rest else (k, v) :: setRanges rest sid rs

/-- One step of `StoreZevData`'s inner loop: a point whose normalized day
is today or later is skipped, otherwise it is appended under its day. -/
def storeZevPoint (today : Int) (sid : String) (m : ZevStore) (pt : ZevSensorData) : ZevStore :=
  let d := dayOf pt.createdAt
  if today ≤ d then m
  else bucketApp m (d, sid) pt

/-- `Cache.StoreZevData` (src/internal/cache/types.go): index every point
of every sensor under its normalized day, dropping today's points. -/
def StoreZevData (today : Int) (c : Cache) (data : List ZevData) : Cache :=
  { c with zevData :=
      data.foldl (fun m zd => zd.data.foldl (storeZevPoint today zd.sensorID) m) c.zevData }

/-- `Cache.UpdateZevCachedRanges` (src/internal/cache/types.go): clip the
range to exclude today, append, re-merge. -/
def UpdateZevCachedRanges (today : Int) (c : Cache) (fromD toD : Int) : Cache :=
  let toC := if today ≤ toD then today - 1 else toD
  if toC < fromD then c
  else { c with zevCachedRanges := MergeRanges (c.zevCachedRanges ++ [⟨fromD, toC⟩]) }

/-- The ascending list of days `fromD, fromD+1, ..., toD` (the iteration
`for d := from; !d.After(to); d = d.AddDate(0,0,1)`). -/
def daysFromTo (fromD toD : Int) : List Int :=
  (List.range (toD + 1 - fromD).toNat).map (fun (i : Nat) => fromD + (i : Int))

/-- Accumulate one day-bucket's sensor entries into the per-sensor result
map built by `Cache.GetZevData`. -/
def addSensorPts (acc : List (String × List ZevSensorData)) (sid : String)
    (pts : List ZevSensorData) : List (String × List ZevSensorData) :=
  match acc with
  | [] => [(sid, pts)]
  | (k, v) :: rest => if k = sid then (k, v ++ pts) :: rest else (k, v) :: addSensorPts rest sid pts

/-- `Cache.GetZevData` (src/internal/cache/types.go): walk each day of
`[from,to]`, concatenate each sensor's stored points, return one `ZevData`
per sensor.  (Go assembles the same per-sensor lists through a map whose
iteration order is unspecified; the model fixes first-appearance order.) -/
def GetZevDataC (c : Cache) (fromD toD : Int) : List ZevData :=
  let pairs := (daysFromTo fromD toD).foldl
    (fun acc d =>
      (c.zevData.filterMap (fun e => if e.1.1 = d then some (e.1.2, e.2) else none)).foldl
        (fun a e => addSensorPts a e.1 e.2) acc)
    []
  pairs.map (fun e => ⟨e.1, e.2⟩)

/-- One step of `StoreSensorData`'s loop (src/internal/cache/sensor.go):
skip points dated today or later, else append under the normalized day. -/
def storeSensorPoint (today : Int) (sid : String) (m : SensorStore) (pt : SensorData) : SensorStore :=
  let d := dayOf pt.date
  if today ≤ d then m
  else bucketApp m (sid, d) pt

/-- `Cache.StoreSensorData` (src/internal/cache/sensor.go). -/
def StoreSensorData (today : Int) (c : Cache) (sid : String) (data : List SensorData) : Cache :=
  { c with sensorData := data.foldl (storeSensorPoint today sid) c.sensorData }

/-- `Cache.UpdateSensorCachedRanges` (src/internal/cache/sensor.go): clip
to exclude today, append to the sensor's range list, re-merge. -/
def UpdateSensorCachedRanges (today : Int) (c : Cache) (sid : String) (fromD toD : Int) : Cache :=
  let toC := if today ≤ toD then today - 1 else toD
  if toC < fromD then c
  else
    let rs := MergeRanges (c.rangesOf sid ++ [⟨fromD, toC⟩])
    { c with sensorCachedRanges := setRanges c.sensorCachedRanges sid rs }

/-- `Cache.GetSensorData` (src/internal/cache/sensor.go): concatenate the
sensor's stored points day by day over `[from,to]`. -/
def GetSensorDataC (c : Cache) (sid : String) (fromD toD : Int) : List SensorData :=
  (daysFromTo fromD toD).foldl (fun acc d => acc ++ bucketGet c.sensorData (sid, d)) []

/- ===================== Cache-backed fetcher ===================== -/

/-- `mergeZevData`'s grouping step (cached client): append a `ZevData`
block to the per-sensor merge map. -/
def addZevBlock (acc : List ZevData) (zd : ZevData) : List ZevData :=
  match acc with
  | [] => [zd]
  | h :: rest =>
    if h.sensorID = zd.sensorID then ⟨h.sensorID, h.data ++ zd.data⟩ :: rest
    else h :: addZevBlock rest zd

/-- Ordering used to sort points by `CreatedAt`. -/
def leCreatedAt (a b : ZevSensorData) : Prop := a.createdAt ≤ b.createdAt

instance : DecidableRel leCreatedAt := fun a b => by
  unfold leCreatedAt; infer_instance

instance : IsTotal ZevSensorData leCreatedAt := ⟨fun a b => Int.le_total a.createdAt b.createdAt⟩

instance : IsTrans ZevSensorData leCreatedAt := ⟨fun _ _ _ h h' => le_trans h h'⟩

/-- `mergeZevData` (cached client): group blocks by sensor, concatenate
their point lists, sort each sensor's points ascending by `CreatedAt`.
Note: there is no de-duplication step. -/
def mergeZevData (data : List ZevData) : List ZevData :=
  (data.foldl addZevBlock []).map (fun zd => ⟨zd.sensorID, zd.data.insertionSort leCreatedAt⟩)

/-- Ordering used to sort battery points by `Date`. -/
def leDate (a b : SensorData) : Prop := a.date ≤ b.date

instance : DecidableRel leDate := fun a b => by
  unfold leDate; infer_instance

instance : IsTotal SensorData leDate := ⟨fun a b => Int.le_total a.date b.date⟩

instance : IsTrans SensorData leDate := ⟨fun _ _ _ h h' => le_trans h h'⟩

/-- The `seen`-map filter of `mergeSensorData`: keep the first occurrence
of each exact timestamp. -/
def dedupByDate (seen : List Int) : List SensorData → List SensorData
  | [] => []
  | d :: rest =>
    if d.date ∈ seen then dedupByDate seen rest
    else d :: dedupByDate (d.date :: seen) rest

/-- `mergeSensorData` (cached client): de-duplicate by exact timestamp,
then sort ascending by `Date`. -/
def mergeSensorData (data : List SensorData) : List SensorData :=
  (dedupByDate [] data).insertionSort leDate

/-- The upstream API collaborator (`api.Client`): its two data fetch calls,
as pure oracles returning either data or an error. -/
structure Upstream where
  getZevData : Int → Int → Except String (List ZevData)
  getSensorData : String → Int → Int → Except String (List SensorData)

/-- The gap-fetching loop of `CachedClient.GetZevData`: fetch each gap
(start of first day to 23:59:59 of the last), store it, mark it cached;
the first fetch error aborts the whole call.  Returns the updated cache
and whether anything was stored (`cacheModified`). -/
def fetchZevGaps (up : Upstream) (today : Int) : Cache → List DateRange →
    Except String (Cache × Bool)
  | c, [] => .ok (c, false)
  | c, g :: rest =>
    match up.getZevData (dayStart g.start) (dayEnd g.stop) with
    | .error e => .error e
    | .ok data =>
      let c1 := UpdateZevCachedRanges today (StoreZevData today c data) g.start g.stop
      match fetchZevGaps up today c1 rest with
      | .error e => .error e
      | .ok (c2, _) => .ok (c2, true)

/-- `CachedClient.GetZevData` with caching enabled: fetch gaps, fetch today
fresh when requested, retrieve the historical remainder from cache, attempt
to save (failure ignored), and merge.  `saveResult` is the outcome the
cache-save would have; the Go code only logs a save failure. -/
def cachedGetZevData (up : Upstream) (saveResult : Except String Unit) (today : Int)
    (c : Cache) (fromT toT : Int) : Except String (List ZevData) :=
  let gaps := FindGaps today c.zevCachedRanges (dayOf fromT) (dayOf toT)
  match fetchZevGaps up today c gaps with
  | .error e => .error e
  | .ok (c1, cacheModified) =>
    let includesToday := today ≤ dayOf toT
    match (if includesToday then up.getZevData (dayStart today) (dayEnd today) else .ok []) with
    | .error e => .error e
    | .ok todayData =>
      let historicalEnd := if includesToday then today - 1 else dayOf toT
      let cachedData :=
        if dayOf fromT ≤ historicalEnd then GetZevDataC c1 (dayOf fromT) historicalEnd else []
      let allData := todayData ++ cachedData
      match (if cacheModified then saveResult else .ok ()) with
      | .error _ => .ok (mergeZevData allData)
      | .ok _ => .ok (mergeZevData allData)

/-- The gap-fetching loop of `CachedClient.GetSensorData`. -/
def fetchSensorGaps (up : Upstream) (today : Int) (sid : String) : Cache → List DateRange →
    Except String (Cache × Bool)
  | c, [] => .ok (c, false)
  | c, g :: rest =>
    match up.getSensorData sid (dayStart g.start) (dayEnd g.stop) with
    | .error e => .error e
    | .ok data =>
      let c1 := UpdateSensorCachedRanges today (StoreSensorData today c sid data) sid g.start g.stop
      match fetchSensorGaps up today sid c1 rest with
      | .error e => .error e
      | .ok (c2, _) => .ok (c2, true)

/-- `CachedClient.GetSensorData` with caching enabled. -/
def cachedGetSensorData (up : Upstream) (saveResult : Except String Unit) (today : Int)
    (c : Cache) (sid : String) (fromT toT : Int) : Except String (List SensorData) :=
  let gaps := FindGaps today (c.rangesOf sid) (dayOf fromT) (dayOf toT)
  match fetchSensorGaps up today sid c gaps with
  | .error e => .error e
  | .ok (c1, cacheModified) =>
    let includesToday := today ≤ dayOf toT
    match (if includesToday then up.getSensorData sid (dayStart today) (dayEnd today)
           else .ok []) with
    | .error e => .error e
    | .ok todayData =>
      let historicalEnd := if includesToday then today - 1 else dayOf toT
      let cachedData :=
        if dayOf fromT ≤ historicalEnd then GetSensorDataC c1 sid (dayOf fromT) historicalEnd
        else []
      let allData := todayData ++ cachedData
      match (if cacheModified then saveResult else .ok ()) with
      | .error _ => .ok (mergeSensorData allData)
      | .ok _ => .ok (mergeSensorData allData)

/-- The first error among the upstream ZEV calls `cachedGetZevData` makes,
in program order: the gap fetches, then (when the window reaches today)
the fresh fetch of today.  `none` when every upstream call succeeds. -/
def firstZevFetchError (up : Upstream) (today : Int) (includesToday : Bool) :
    List DateRange → Option String
  | [] =>
    if includesToday then
      match up.getZevData (dayStart today) (dayEnd today) with
      | .error e => some e
      | .ok _ => none
    else none
  | g :: rest =>
    match up.getZevData (dayStart g.start) (dayEnd g.stop) with
    | .error e => some e
    | .ok _ => firstZevFetchError up today includesToday rest

/-- The first error among the upstream calls `cachedGetSensorData` makes. -/
def firstSensorFetchError (up : Upstream) (today : Int) (sid : String) (includesToday : Bool) :
    List DateRange → Option String
  | [] =>
    if includesToday then
      match up.getSensorData sid (dayStart today) (dayEnd today) with
      | .error e => some e
      | .ok _ => none
    else none
  | g :: rest =>
    match up.getSensorData sid (dayStart g.start) (dayEnd g.stop) with
    | .error e => some e
    | .ok _ => firstSensorFetchError up today sid includesToday rest

/- ===================== Analyzer (src/internal/analyzer/energy.go) ===================== -/

/-- The low-tariff window of the configuration (`config.LowTariff`). -/
structure LowTariff where
  startHour : Int
  endHour : Int
deriving DecidableEq, Repr

/-- The ZEV section of the configuration (`config.ZEV`). -/
structure ZevConfig where
  gridMeterID : String
  productionIDs : List String
  batterySystemIDs : List String
  consumerIDs : List String
  inverterEfficiency : ℚ

/-- The configuration fields the analyzer reads. -/
structure Config where
  lowTariff : LowTariff
  zev : ZevConfig

/-- The hour-of-day of a timestamp (`time.Time.Hour`). -/
def hourOf (t : Int) : Int := (Int.emod t 86400) / 3600

/-- `isLowTariffHour` (src/internal/analyzer/energy.go): wraparound window
when `start > end`, same-day window otherwise. -/
def isLowTariffHour (cfg : Config) (hour : Int) : Bool :=
  let s := cfg.lowTariff.startHour
  let e := cfg.lowTariff.endHour
  if s > e then decide (hour ≥ s) || decide (hour < e)
  else decide (hour ≥ s) && decide (hour < e)

/-- `IntervalData` (src/internal/analyzer/energy.go): one 900-second
bucket's accumulated energies.  `ConsumerUsage` is the per-consumer usage
map, modelled as an association list. -/
structure IntervalData where
  start : Int
  stop : Int
  gridImport : ℚ
  gridExport : ℚ
  inverterGeneratedPower : ℚ
  inverterPowerConsumption : ℚ
  batteryCharge : ℚ
  batteryDischarge : ℚ
  consumerUsage : List (String × ℚ)
deriving DecidableEq, Repr

/-- `usage[id] += v` on the consumer-usage map (Go map `+=` with zero
default; a missing key is created). -/
def usageAdd (m : List (String × ℚ)) (cid : String) (v : ℚ) : List (String × ℚ) :=
  match m with
  | [] => [(cid, v)]
  | (k, u) :: rest => if k = cid then (k, u + v) :: rest else (k, u) :: usageAdd rest cid v

/-- `usage[id] = v` on the consumer-usage map. -/
def usageSet (m : List (String × ℚ)) (cid : String) (v : ℚ) : List (String × ℚ) :=
  match m with
  | [] => [(cid, v)]
  | (k, u) :: rest => if k = cid then (k, v) :: rest else (k, u) :: usageSet rest cid v

/-- Sum of all values of the consumer-usage map (the
`for _, usage := range interval.ConsumerUsage` total; order-independent). -/
def usageSum (m : List (String × ℚ)) : ℚ := (m.map Prod.snd).sum

/-- `createIntervals` (src/internal/analyzer/energy.go): contiguous
900-second buckets covering `[from,to)`, the last truncated to `to`. -/
def createIntervals (fromT toT : Int) : List IntervalData :=
  (List.range (((toT - fromT) + 899).fdiv 900).toNat).map (fun i =>
    { start := fromT + 900 * i
      stop := min (fromT + 900 * i + 900) toT
      gridImport := 0, gridExport := 0
      inverterGeneratedPower := 0, inverterPowerConsumption := 0
      batteryCharge := 0, batteryDischarge := 0
      consumerUsage := [] })

/-- `findInterval` (src/internal/analyzer/energy.go) as an index: the first
interval with `Start <= t < End`, linear scan. -/
def findIntervalIdx (ivs : List IntervalData) (t : Int) : Option Nat :=
  ivs.findIdx? (fun iv => decide (iv.start ≤ t) && decide (t < iv.stop))

/-- The consecutive pairs `(data[i-1], data[i])` walked by every collector
loop `for i := 1; i < len(data); i++`. -/
def pairsOf {α : Type} (l : List α) : List (α × α) := l.zip l.tail

/-- The body of `collectGridData`'s loop: locate the interval of the
current sample, skip on the counter-reset signature (previous delivery
exactly zero, current non-zero), skip when either delta exceeds 30 kWh,
else accumulate both deltas. -/
def gridStep (ivs : List IntervalData) (pr : ZevSensorData × ZevSensorData) : List IntervalData :=
  let previous := pr.1
  let current := pr.2
  match findIntervalIdx ivs current.createdAt with
  | none => ivs
  | some k =>
    if previous.delivery = 0 ∧ current.delivery ≠ 0 then ivs
    else
      let purchaseDiff := current.purchase - previous.purchase
      let deliveryDiff := current.delivery - previous.delivery
      if purchaseDiff > 30000 ∨ deliveryDiff > 30000 then ivs
      else ivs.modify (fun iv =>
        { iv with gridImport := iv.gridImport + purchaseDiff
                  gridExport := iv.gridExport + deliveryDiff }) k

/-- `collectGridData` (src/internal/analyzer/energy.go): no-op without a
configured grid meter, else process the matching sensor's pairs. -/
def collectGridData (cfg : Config) (data : List ZevData) (ivs : List IntervalData) :
    List IntervalData :=
  if cfg.zev.gridMeterID = "" then ivs
  else data.foldl (fun ivs sd =>
    if sd.sensorID = cfg.zev.gridMeterID then (pairsOf sd.data).foldl gridStep ivs else ivs) ivs

/-- The body of `collectInverterData`'s loop: both deltas must lie in
`[0, 10000]`; the interval then accumulates the NET formula
`delivery - purchase`. -/
def inverterStep (ivs : List IntervalData) (pr : ZevSensorData × ZevSensorData) :
    List IntervalData :=
  let previous := pr.1
  let current := pr.2
  match findIntervalIdx ivs current.createdAt with
  | none => ivs
  | some k =>
    let delivery := current.delivery - previous.delivery
    if delivery > 10000 ∨ delivery < 0 then ivs
    else
      let purchase := current.purchase - previous.purchase
      if purchase > 10000 ∨ purchase < 0 then ivs
      else ivs.modify (fun iv =>
        { iv with inverterGeneratedPower := iv.inverterGeneratedPower + (delivery - purchase) }) k

/-- `collectInverterData` (src/internal/analyzer/energy.go). -/
def collectInverterData (cfg : Config) (data : List ZevData) (ivs : List IntervalData) :
    List IntervalData :=
  cfg.zev.productionIDs.foldl (fun ivs pid =>
    data.foldl (fun ivs sd =>
      if sd.sensorID = pid then (pairsOf sd.data).foldl inverterStep ivs else ivs) ivs) ivs

/-- The body of `collectBatteryData`'s loop: the loop starts at index 1 but
reads only the current sample, accumulating its charge/discharge values
directly (swapped when the sensor's `InvertMeasurement` flag is set). -/
def batteryStep (invert : Bool) (ivs : List IntervalData) (pr : SensorData × SensorData) :
    List IntervalData :=
  let current := pr.2
  match findIntervalIdx ivs current.date with
  | none => ivs
  | some k =>
    let charge := if invert then current.batteryDischargeWh else current.batteryChargeWh
    let discharge := if invert then current.batteryChargeWh else current.batteryDischargeWh
    ivs.modify (fun iv =>
      { iv with batteryCharge := iv.batteryCharge + charge
                batteryDischarge := iv.batteryDischarge + discharge }) k

/-- `collectBatteryData` restricted to one battery sensor's fetched data
(the Go function loops over the configured battery IDs, fetching each
sensor's data and running this accumulation with its inversion flag). -/
def collectBatteryDataOne (invert : Bool) (data : List SensorData) (ivs : List IntervalData) :
    List IntervalData :=
  (pairsOf data).foldl (batteryStep invert) ivs

/-- The battery collector as the spec describes it ("all collectors operate
on consecutive-pair differences of cumulative counters per sensor"): the
interval contribution of a sample would be the difference between its
charge/discharge values and the previous sample's.  Defined only to be
compared against `batteryStep`, which is what the code actually does. -/
def batteryDiffStep (invert : Bool) (ivs : List IntervalData) (pr : SensorData × SensorData) :
    List IntervalData :=
  let previous := pr.1
  let current := pr.2
  match findIntervalIdx ivs current.date with
  | none => ivs
  | some k =>
    let chargeDiff := current.batteryChargeWh - previous.batteryChargeWh
    let dischargeDiff := current.batteryDischargeWh - previous.batteryDischargeWh
    let charge := if invert then dischargeDiff else chargeDiff
    let discharge := if invert then chargeDiff else dischargeDiff
    ivs.modify (fun iv =>
      { iv with batteryCharge := iv.batteryCharge + charge
                batteryDischarge := iv.batteryDischarge + discharge }) k

/-- One battery sensor's collection under the spec's consecutive-difference
reading (comparison definition for `collectBatteryDataOne`). -/
def collectBatteryDiffOne (invert : Bool) (data : List SensorData) (ivs : List IntervalData) :
    List IntervalData :=
  (pairsOf data).foldl (batteryDiffStep invert) ivs

/-- The body of `collectConsumerData`'s loop: usage is the purchase-counter
delta (delivery-counter delta when inverted); a delta above 10 kWh is
discarded. -/
def consumerStep (invert : Bool) (cid : String) (ivs : List IntervalData)
    (pr : ZevSensorData × ZevSensorData) : List IntervalData :=
  let previous := pr.1
  let current := pr.2
  match findIntervalIdx ivs current.createdAt with
  | none => ivs
  | some k =>
    let usage :=
      if invert then current.delivery - previous.delivery
      else current.purchase - previous.purchase
    if usage > 10000 then ivs
    else ivs.modify (fun iv => { iv with consumerUsage := usageAdd iv.consumerUsage cid usage }) k

/-- `collectConsumerData` (src/internal/analyzer/energy.go); `inverted`
gives each consumer sensor's `InvertMeasurement` flag (the Go code reads it
from the sensor map). -/
def collectConsumerData (cfg : Config) (inverted : String → Bool) (data : List ZevData)
    (ivs : List IntervalData) : List IntervalData :=
  cfg.zev.consumerIDs.foldl (fun ivs cid =>
    data.foldl (fun ivs sd =>
      if sd.sensorID = cid then (pairsOf sd.data).foldl (consumerStep (inverted cid) cid) ivs
      else ivs) ivs) ivs

/-- `ConsumerStats` (src/internal/analyzer/energy.go): the three source
accumulators plus the total (the `Sensor` pointer is reduced to the
consumer id carried by the association list). -/
structure ConsumerStats where
  fromInverter : ℚ
  fromBattery : ℚ
  fromGrid : ℚ
  total : ℚ
deriving DecidableEq, Repr

/-- `EnergyStats` (src/internal/analyzer/energy.go), minus the period
timestamps (no claim concerns them). -/
structure EnergyStats where
  gridImport : ℚ
  gridExport : ℚ
  production : ℚ
  consumption : ℚ
  batteryCharge : ℚ
  batteryDischarge : ℚ
  consumers : List ConsumerStats
deriving DecidableEq, Repr

/-- The all-zero `ConsumerStats` a consumer starts with. -/
def ConsumerStats.zero : ConsumerStats := ⟨0, 0, 0, 0⟩

/-- Update one consumer's entry of the stats map (a key not present is
left alone; in Go the keys of `ConsumerUsage` are always initialized in
`consumerStats`). -/
def updateConsumer (m : List (String × ConsumerStats)) (cid : String)
    (f : ConsumerStats → ConsumerStats) : List (String × ConsumerStats) :=
  match m with
  | [] => []
  | (k, v) :: rest => if k = cid then (k, f v) :: rest else (k, v) :: updateConsumer rest cid f

/-- The configured inverter efficiency with its default: 0.93 when the
configuration leaves it zero. -/
def effectiveEfficiency (cfg : Config) : ℚ :=
  if cfg.zev.inverterEfficiency = 0 then 93 / 100 else cfg.zev.inverterEfficiency

/-- The battery-AC / solar split of `calculateStats` (src/internal/analyzer/
energy.go lines 479-492): `batteryAC = discharge × efficiency`,
`solar = inverterNet - batteryAC`; when the inverter is net-producing but
the battery claims more than it delivered, the battery contribution is
clamped to the inverter output and solar floored at zero.  Returns
`(batteryACContribution, solarContribution)`. -/
def sourceContributions (inverterNet batteryDischarge eff : ℚ) : ℚ × ℚ :=
  if 0 ≤ inverterNet ∧ inverterNet - batteryDischarge * eff < 0 then (inverterNet, 0)
  else (batteryDischarge * eff, inverterNet - batteryDischarge * eff)

/-- The per-interval body of `calculateStats`: skip intervals of the other
tariff class, accumulate the raw period totals, record positive shared
usage under the synthetic `"shared"` consumer, and (when `totalInput > 0`)
distribute every positive consumer usage across the three sources. -/
def processInterval (cfg : Config) (lowTariff : Bool)
    (acc : EnergyStats × List (String × ConsumerStats)) (iv : IntervalData) :
    EnergyStats × List (String × ConsumerStats) :=
  if isLowTariffHour cfg (hourOf iv.start) ≠ lowTariff then acc
  else
    let stats := acc.1
    let consumerStats := acc.2
    let stats :=
      { stats with
          gridImport := stats.gridImport + iv.gridImport
          gridExport := stats.gridExport + iv.gridExport
          production := stats.production + iv.inverterGeneratedPower
          consumption := stats.consumption + iv.inverterPowerConsumption
          batteryCharge := stats.batteryCharge + iv.batteryCharge
          batteryDischarge := stats.batteryDischarge + iv.batteryDischarge }
    let totalInput := iv.gridImport + iv.inverterGeneratedPower
    let totalOutput := usageSum iv.consumerUsage + iv.gridExport + iv.inverterPowerConsumption
    let sharedUseEnergy := totalInput - totalOutput
    let usage :=
      if sharedUseEnergy > 0 then usageSet iv.consumerUsage "shared" sharedUseEnergy
      else iv.consumerUsage
    if totalInput ≤ 0 then (stats, consumerStats)
    else
      let eff := effectiveEfficiency cfg
      let contrib := sourceContributions iv.inverterGeneratedPower iv.batteryDischarge eff
      let batteryACContribution := contrib.1
      let solarContribution := contrib.2
      let inverterShare := solarContribution / totalInput
      let batteryShare := batteryACContribution / totalInput
      let gridShare := iv.gridImport / totalInput
      let inverterConsuming := iv.inverterGeneratedPower < 0
      let consumerStats := usage.foldl (fun cs e =>
        if e.2 ≤ 0 then cs
        else updateConsumer cs e.1 (fun c =>
          if inverterConsuming ∧ e.1 ≠ "shared" then
            { c with
                total := c.total + e.2
                fromInverter := c.fromInverter + 0
                fromBattery := c.fromBattery + e.2 * batteryShare
                fromGrid := c.fromGrid + e.2 * (gridShare + inverterShare) }
          else
            { c with
                total := c.total + e.2
                fromInverter := c.fromInverter + e.2 * inverterShare
                fromBattery := c.fromBattery + e.2 * batteryShare
                fromGrid := c.fromGrid + e.2 * gridShare })) consumerStats
      (stats, consumerStats)

/-- `calculateStats` (src/internal/analyzer/energy.go): one pass over the
intervals gated by the tariff predicate; the consumer map starts with the
configured consumers plus the synthetic `"shared"` consumer and is emitted
as the `Consumers` slice.  (Go mutates each interval's `ConsumerUsage`
map when recording shared usage; since the two tariff passes partition the
intervals, the mutation is never observed by the other pass, and the model
keeps the update local.) -/
def calculateStats (cfg : Config) (ivs : List IntervalData) (lowTariff : Bool) : EnergyStats :=
  let init := cfg.zev.consumerIDs.map (fun cid => (cid, ConsumerStats.zero)) ++
    [("shared", ConsumerStats.zero)]
  let zero : EnergyStats := ⟨0, 0, 0, 0, 0, 0, []⟩
  let res := ivs.foldl (processInterval cfg lowTariff) (zero, init)
  { res.1 with consumers := res.2.map Prod.snd }

/-- A configuration with just a low-tariff window (the other fields do not
influence `isLowTariffHour`). -/
def mkTariffCfg (s e : Int) : Config := ⟨⟨s, e⟩, ⟨"", [], [], [], 0⟩⟩

/- ===================== Theorems ===================== -/

/-- C9: the low-tariff predicate uses `hour >= start OR hour < end` for a
wraparound window (`start > end`) and `hour >= start AND hour < end`
otherwise; in particular window 21-6 marks hour 23 low and hour 10 high,
and window 6-22 marks hour 5 high and hour 10 low. -/
theorem isLowTariffHour_spec :
    (∀ s e h : Int, (isLowTariffHour (mkTariffCfg s e) h = true ↔
      if e < s then (h ≥ s ∨ h < e) else (h ≥ s ∧ h < e))) ∧
    isLowTariffHour (mkTariffCfg 21 6) 23 = true ∧
    isLowTariffHour (mkTariffCfg 21 6) 10 = false ∧
    isLowTariffHour (mkTariffCfg 6 22) 5 = false ∧
    isLowTariffHour (mkTariffCfg 6 22) 10 = true := by
  refine ⟨fun s e h => ?_, by decide, by decide, by decide, by decide⟩
  simp only [isLowTariffHour, mkTariffCfg, gt_iff_lt]
  by_cases hse : e < s
  · simp [hse]
  · simp [hse]

/-- C6: when the inverter is net-producing but the AC-equivalent battery
discharge (`batteryDischarge * inverterEfficiency`) exceeds the inverter
net output, `calculateStats` clamps the battery contribution down to the
inverter output and floors the solar contribution at exactly zero. -/
theorem sourceContributions_clamp (inverterNet batteryDischarge eff : ℚ)
    (h0 : 0 ≤ inverterNet) (h1 : inverterNet < batteryDischarge * eff) :
    sourceContributions inverterNet batteryDischarge eff = (inverterNet, 0) := by
  unfold sourceContributions
  rw [if_pos ⟨h0, by linarith⟩]

/-- C6 witness: `inverterNet = 500`, `batteryDischarge = 1000`,
`efficiency = 0.93`: the raw battery AC contribution 930 exceeds 500, and
the computed split is battery 500, solar 0. -/
theorem sourceContributions_clamp_witness :
    (0 : ℚ) ≤ 500 ∧ (500 : ℚ) < 1000 * (93 / 100) ∧
    sourceContributions 500 1000 (93 / 100) = (500, 0) :=
  ⟨by norm_num, by norm_num,
    sourceContributions_clamp 500 1000 (93 / 100) (by norm_num) (by norm_num)⟩

/-- C7: for a consecutive inverter sample pair landing in interval `k`,
when both the delivery delta and the purchase delta lie within `[0, 10000]`
the interval accumulates exactly `deliveryDelta - purchaseDelta`; when
either delta is negative or exceeds 10000 the pair changes nothing
(discarded, not clamped). -/
theorem inverterStep_net_formula (ivs : List IntervalData)
    (previous current : ZevSensorData) (k : Nat)
    (hk : findIntervalIdx ivs current.createdAt = some k) :
    (0 ≤ current.delivery - previous.delivery → current.delivery - previous.delivery ≤ 10000 →
     0 ≤ current.purchase - previous.purchase → current.purchase - previous.purchase ≤ 10000 →
     inverterStep ivs (previous, current) = ivs.modify (fun iv =>
       { iv with inverterGeneratedPower := iv.inverterGeneratedPower +
           ((current.delivery - previous.delivery) -
            (current.purchase - previous.purchase)) }) k) ∧
    ((current.delivery - previous.delivery < 0 ∨ 10000 < current.delivery - previous.delivery ∨
      current.purchase - previous.purchase < 0 ∨
      10000 < current.purchase - previous.purchase) →
     inverterStep ivs (previous, current) = ivs) := by
  unfold inverterStep
  simp only [hk]
  constructor
  · intro hd0 hd1 hp0 hp1
    rw [if_neg (by push_neg; exact ⟨hd1, hd0⟩), if_neg (by push_neg; exact ⟨hp1, hp0⟩)]
  · intro h
    by_cases hd : current.delivery - previous.delivery > 10000 ∨
        current.delivery - previous.delivery < 0
    · rw [if_pos hd]
    · rw [if_neg hd, if_pos ?_]
      push_neg at hd
      rcases h with h | h | h | h
      · exact absurd h (by linarith [hd.2])
      · exact absurd h (by linarith [hd.1])
      · exact Or.inr h
      · exact Or.inl h

/-- C7 witness: a pair with delivery delta 1100 and purchase delta 500 in
a live interval accumulates exactly 600 Wh of net production, and a pair
with a delivery delta of 10001 is discarded. -/
theorem inverterStep_net_formula_witness :
    inverterStep [⟨0, 900, 0, 0, 0, 0, 0, 0, []⟩] (⟨0, 0, 0⟩, ⟨10, 500, 1100⟩) =
      [⟨0, 900, 0, 0, 600, 0, 0, 0, []⟩] ∧
    inverterStep [⟨0, 900, 0, 0, 0, 0, 0, 0, []⟩] (⟨0, 0, 0⟩, ⟨10, 0, 10001⟩) =
      [⟨0, 900, 0, 0, 0, 0, 0, 0, []⟩] := by
  constructor
  · refine ((inverterStep_net_formula [⟨0, 900, 0, 0, 0, 0, 0, 0, []⟩]
      ⟨0, 0, 0⟩ ⟨10, 500, 1100⟩ 0 rfl).1
        (by norm_num) (by norm_num) (by norm_num) (by norm_num)).trans ?_
    simp [List.modify]
    norm_num
  · exact (inverterStep_net_formula [⟨0, 900, 0, 0, 0, 0, 0, 0, []⟩]
      ⟨0, 0, 0⟩ ⟨10, 0, 10001⟩ 0 rfl).2 (Or.inr (Or.inl (by norm_num)))

/-- C8 counterexample: the battery collector does not derive interval
contributions as differences of consecutive samples.  On two samples with
the same charge value 100, the code accumulates the current sample's raw
value (100 Wh) while the consecutive-difference reading of the spec would
accumulate 0. -/
theorem collectBattery_not_pairwise_diff :
    (collectBatteryDataOne false [⟨0, 100, 0⟩, ⟨10, 100, 0⟩]
        [⟨0, 900, 0, 0, 0, 0, 0, 0, []⟩]).map (fun iv => iv.batteryCharge) = [100] ∧
    (collectBatteryDiffOne false [⟨0, 100, 0⟩, ⟨10, 100, 0⟩]
        [⟨0, 900, 0, 0, 0, 0, 0, 0, []⟩]).map (fun iv => iv.batteryCharge) = [0] ∧
    (100 : ℚ) ≠ 0 := by
  refine ⟨?_, ?_, by norm_num⟩
  · show ((batteryStep false [⟨0, 900, 0, 0, 0, 0, 0, 0, []⟩]
      (⟨0, 100, 0⟩, ⟨10, 100, 0⟩)).map (fun iv => iv.batteryCharge)) = [100]
    simp [batteryStep, findIntervalIdx, List.findIdx?, List.modify]
  · show ((batteryDiffStep false [⟨0, 900, 0, 0, 0, 0, 0, 0, []⟩]
      (⟨0, 100, 0⟩, ⟨10, 100, 0⟩)).map (fun iv => iv.batteryCharge)) = [0]
    simp [batteryDiffStep, findIntervalIdx, List.findIdx?, List.modify]

/-- C8 (amended): the grid, inverter and consumer collectors each derive an
interval's contribution as the difference between two consecutive
cumulative counter samples of the same sensor; the battery collector
instead accumulates each sample's charge/discharge values directly (its
samples are per-interval energies, not cumulative counters; the first
sample is skipped). -/
theorem collectors_consecutive_diffs :
    (∀ ivs (previous current : ZevSensorData) k,
      findIntervalIdx ivs current.createdAt = some k →
      ¬(previous.delivery = 0 ∧ current.delivery ≠ 0) →
      current.purchase - previous.purchase ≤ 30000 →
      current.delivery - previous.delivery ≤ 30000 →
      gridStep ivs (previous, current) = ivs.modify (fun iv =>
        { iv with gridImport := iv.gridImport + (current.purchase - previous.purchase)
                  gridExport := iv.gridExport + (current.delivery - previous.delivery) }) k) ∧
    (∀ ivs (previous current : ZevSensorData) k,
      findIntervalIdx ivs current.createdAt = some k →
      0 ≤ current.delivery - previous.delivery → current.delivery - previous.delivery ≤ 10000 →
      0 ≤ current.purchase - previous.purchase → current.purchase - previous.purchase ≤ 10000 →
      inverterStep ivs (previous, current) = ivs.modify (fun iv =>
        { iv with inverterGeneratedPower := iv.inverterGeneratedPower +
            ((current.delivery - previous.delivery) -
             (current.purchase - previous.purchase)) }) k) ∧
    (∀ invert cid ivs (previous current : ZevSensorData) k,
      findIntervalIdx ivs current.createdAt = some k →
      (if invert then current.delivery - previous.delivery
       else current.purchase - previous.purchase) ≤ 10000 →
      consumerStep invert cid ivs (previous, current) = ivs.modify (fun iv =>
        { iv with consumerUsage := usageAdd iv.consumerUsage cid (if invert then current.delivery - previous.delivery else current.purchase - previous.purchase) }) k) ∧
    (∀ invert ivs (previous current : SensorData) k,
      findIntervalIdx ivs current.date = some k →
      batteryStep invert ivs (previous, current) = ivs.modify (fun iv =>
        { iv with batteryCharge := iv.batteryCharge + (if invert then current.batteryDischargeWh else current.batteryChargeWh)
                  batteryDischarge := iv.batteryDischarge + (if invert then current.batteryChargeWh else current.batteryDischargeWh) }) k) := by
  refine ⟨?_, ?_, ?_, ?_⟩
  · intro ivs previous current k hk hreset hp hd
    unfold gridStep
    simp only [hk]
    rw [if_neg hreset, if_neg (by push_neg; exact ⟨hp, hd⟩)]
  · intro ivs previous current k hk hd0 hd1 hp0 hp1
    exact (inverterStep_net_formula ivs previous current k hk).1 hd0 hd1 hp0 hp1
  · intro invert cid ivs previous current k hk hu
    unfold consumerStep
    simp only [hk]
    split <;> rename_i h
    · rw [if_neg (not_lt.mpr (by simpa [h] using hu))]
    · rw [if_neg (not_lt.mpr (by simpa [h] using hu))]
  · intro invert ivs previous current k hk
    unfold batteryStep
    simp only [hk]

/-- C8 witness: each of the four collector characterizations at a concrete
sample pair in a live interval. -/
theorem collectors_consecutive_diffs_witness :
    gridStep [⟨0, 900, 0, 0, 0, 0, 0, 0, []⟩] (⟨0, 10, 20⟩, ⟨10, 110, 70⟩) =
      [⟨0, 900, 0, 0, 0, 0, 0, 0, []⟩].modify (fun iv =>
        { iv with gridImport := iv.gridImport + ((110 : ℚ) - 10)
                  gridExport := iv.gridExport + ((70 : ℚ) - 20) }) 0 ∧
    inverterStep [⟨0, 900, 0, 0, 0, 0, 0, 0, []⟩] (⟨0, 0, 0⟩, ⟨10, 500, 1100⟩) =
      [⟨0, 900, 0, 0, 0, 0, 0, 0, []⟩].modify (fun iv =>
        { iv with inverterGeneratedPower := iv.inverterGeneratedPower +
            (((1100 : ℚ) - 0) - ((500 : ℚ) - 0)) }) 0 ∧
    consumerStep false "c1" [⟨0, 900, 0, 0, 0, 0, 0, 0, []⟩] (⟨0, 10, 0⟩, ⟨10, 60, 0⟩) =
      [⟨0, 900, 0, 0, 0, 0, 0, 0, []⟩].modify (fun iv =>
        { iv with consumerUsage := usageAdd iv.consumerUsage "c1" ((60 : ℚ) - 10) }) 0 ∧
    batteryStep false [⟨0, 900, 0, 0, 0, 0, 0, 0, []⟩] (⟨0, 100, 0⟩, ⟨10, 100, 40⟩) =
      [⟨0, 900, 0, 0, 0, 0, 0, 0, []⟩].modify (fun iv =>
        { iv with batteryCharge := iv.batteryCharge + (100 : ℚ)
                  batteryDischarge := iv.batteryDischarge + (40 : ℚ) }) 0 := by
  refine ⟨?_, ?_, ?_, ?_⟩
  · exact collectors_consecutive_diffs.1 _ ⟨0, 10, 20⟩ ⟨10, 110, 70⟩ 0 rfl
      (by norm_num) (by norm_num) (by norm_num)
  · exact collectors_consecutive_diffs.2.1 _ ⟨0, 0, 0⟩ ⟨10, 500, 1100⟩ 0 rfl
      (by norm_num) (by norm_num) (by norm_num) (by norm_num)
  · exact collectors_consecutive_diffs.2.2.1 false "c1" _ ⟨0, 10, 0⟩ ⟨10, 60, 0⟩ 0 rfl
      (by norm_num)
  · exact collectors_consecutive_diffs.2.2.2 false _ ⟨0, 100, 0⟩ ⟨10, 100, 40⟩ 0 rfl

/-- The `seen`-filter of `mergeSensorData` produces timestamps disjoint
from `seen` and pairwise distinct. -/
theorem dedupByDate_spec (l : List SensorData) : ∀ seen,
    (∀ x ∈ dedupByDate seen l, x.date ∉ seen) ∧
    List.Pairwise (fun a b => a.date ≠ b.date) (dedupByDate seen l) := by
  induction l with
  | nil => intro seen; simp [dedupByDate]
  | cons d rest ih =>
    intro seen
    by_cases hd : d.date ∈ seen
    · simpa [dedupByDate, hd] using ih seen
    · have ihd := ih (d.date :: seen)
      refine ⟨?_, ?_⟩
      · intro x hx
        rw [dedupByDate, if_neg hd] at hx
        rcases List.mem_cons.mp hx with rfl | hx
        · exact hd
        · intro hxs
          exact (ihd.1 x hx) (List.mem_cons_of_mem _ hxs)
      · rw [dedupByDate, if_neg hd]
        refine List.Pairwise.cons (fun b hb => ?_) ihd.2
        have := ihd.1 b hb
        simp only [List.mem_cons, not_or] at this
        exact fun h => this.1 h.symm

/-- C5 counterexample: `mergeZevData` does not de-duplicate by timestamp.
Two fetched blocks for the same sensor each holding a reading with
timestamp 0 merge into one sensor list that contains that timestamp
twice. -/
theorem mergeZevData_no_dedup :
    ¬ ∀ zd ∈ mergeZevData [⟨"s", [⟨0, 0, 0⟩]⟩, ⟨"s", [⟨0, 0, 0⟩]⟩],
        List.Pairwise (fun a b : ZevSensorData => a.createdAt ≠ b.createdAt) zd.data := by
  decide

/-- C5 (amended): the battery-data merge step de-duplicates by exact
timestamp and sorts ascending; the aggregated ZEV merge step sorts each
sensor's readings ascending by timestamp but performs no de-duplication,
so overlapping boundary samples can appear twice. -/
theorem merge_steps_sorted (zdata : List ZevData) (sdata : List SensorData) :
    List.Pairwise (fun a b : SensorData => a.date < b.date) (mergeSensorData sdata) ∧
    ∀ zd ∈ mergeZevData zdata, List.Pairwise leCreatedAt zd.data := by
  constructor
  · have hsorted : List.Sorted leDate (mergeSensorData sdata) :=
      List.sorted_insertionSort leDate (dedupByDate [] sdata)
    have hperm := List.perm_insertionSort leDate (dedupByDate [] sdata)
    have hne : List.Pairwise (fun a b : SensorData => a.date ≠ b.date) (mergeSensorData sdata) :=
      (hperm.pairwise_iff (fun h => Ne.symm h)).mpr (dedupByDate_spec sdata []).2
    exact (hsorted.and hne).imp (fun h => lt_of_le_of_ne h.1 h.2)
  · intro zd hzd
    rw [mergeZevData] at hzd
    rcases List.mem_map.mp hzd with ⟨zd0, _, rfl⟩
    exact List.sorted_insertionSort leCreatedAt zd0.data

/-- C5 witness: the amended statement at a concrete overlapping input. -/
theorem merge_steps_sorted_witness :
    List.Pairwise (fun a b : SensorData => a.date < b.date)
      (mergeSensorData [⟨5, 0, 0⟩, ⟨3, 0, 0⟩, ⟨5, 0, 0⟩]) ∧
    ∀ zd ∈ mergeZevData [⟨"s", [⟨7, 0, 0⟩, ⟨2, 0, 0⟩]⟩],
      List.Pairwise leCreatedAt zd.data :=
  merge_steps_sorted [⟨"s", [⟨7, 0, 0⟩, ⟨2, 0, 0⟩]⟩] [⟨5, 0, 0⟩, ⟨3, 0, 0⟩, ⟨5, 0, 0⟩]

/-- Generic fold invariant: a property preserved by each step is preserved
by the whole `foldl`. -/
theorem foldl_preserves {α β : Type} (P : α → Prop) (step : α → β → α)
    (hstep : ∀ a b, P a → P (step a b)) : ∀ (l : List β) (a : α), P a → P (l.foldl step a) := by
  intro l
  induction l with
  | nil => intro a ha; exact ha
  | cons b rest ih => intro a ha; exact ih (step a b) (hstep a b ha)

/-- `updateConsumer` preserves a per-entry property when the update
function does. -/
theorem updateConsumer_preserves {P : ConsumerStats → Prop} (f : ConsumerStats → ConsumerStats)
    (hf : ∀ c, P c → P (f c)) :
    ∀ (m : List (String × ConsumerStats)) (cid : String), (∀ e ∈ m, P e.2) →
      ∀ e ∈ updateConsumer m cid f, P e.2 := by
  intro m
  induction m with
  | nil => intro cid _ e he; simp [updateConsumer] at he
  | cons kv rest ih =>
    obtain ⟨k, v⟩ := kv
    intro cid hm e he
    rw [updateConsumer] at he
    by_cases hk : k = cid
    · rw [if_pos hk] at he
      rcases List.mem_cons.mp he with h | he
      · subst h; exact hf _ (hm (k, v) (List.mem_cons_self _ _))
      · exact hm e (List.mem_cons_of_mem _ he)
    · rw [if_neg hk] at he
      rcases List.mem_cons.mp he with h | he
      · subst h; exact hm (k, v) (List.mem_cons_self _ _)
      · exact ih cid (fun x hx => hm x (List.mem_cons_of_mem _ hx)) e he

/-- The battery-AC and solar contributions always sum to the inverter net
output, clamped or not. -/
theorem sourceContributions_sum (inverterNet batteryDischarge eff : ℚ) :
    (sourceContributions inverterNet batteryDischarge eff).1 +
      (sourceContributions inverterNet batteryDischarge eff).2 = inverterNet := by
  unfold sourceContributions
  split <;> ring

/-- With positive total input, the three source shares of an interval sum
to one. -/
theorem shares_sum_one (gridImport inverterNet batteryDischarge eff : ℚ)
    (h : 0 < gridImport + inverterNet) :
    (sourceContributions inverterNet batteryDischarge eff).2 / (gridImport + inverterNet) +
      (sourceContributions inverterNet batteryDischarge eff).1 / (gridImport + inverterNet) +
      gridImport / (gridImport + inverterNet) = 1 := by
  rw [div_add_div_same, div_add_div_same]
  have h2 : (sourceContributions inverterNet batteryDischarge eff).2 +
      (sourceContributions inverterNet batteryDischarge eff).1 + gridImport =
      gridImport + inverterNet := by
    have := sourceContributions_sum inverterNet batteryDischarge eff
    linarith
  rw [h2, div_self (ne_of_gt h)]

/-- One `calculateStats` interval keeps every consumer's `Total` equal to
the sum of its three source accumulators. -/
theorem processInterval_preserves (cfg : Config) (lowTariff : Bool)
    (acc : EnergyStats × List (String × ConsumerStats)) (iv : IntervalData)
    (hacc : ∀ e ∈ acc.2, e.2.total = e.2.fromInverter + e.2.fromBattery + e.2.fromGrid) :
    ∀ e ∈ (processInterval cfg lowTariff acc iv).2,
      e.2.total = e.2.fromInverter + e.2.fromBattery + e.2.fromGrid := by
  rw [processInterval]
  by_cases htar : isLowTariffHour cfg (hourOf iv.start) ≠ lowTariff
  · rw [if_pos htar]; exact hacc
  · rw [if_neg htar]
    simp only
    by_cases hti : iv.gridImport + iv.inverterGeneratedPower ≤ 0
    · rw [if_pos hti]; exact hacc
    · rw [if_neg hti]
      simp only
      have hpos : 0 < iv.gridImport + iv.inverterGeneratedPower := lt_of_not_le hti
      set ti := iv.gridImport + iv.inverterGeneratedPower with hti_def
      set eff := effectiveEfficiency cfg
      set contrib := sourceContributions iv.inverterGeneratedPower iv.batteryDischarge eff
        with hcontrib
      have hsum : contrib.2 / ti + contrib.1 / ti + iv.gridImport / ti = 1 :=
        shares_sum_one iv.gridImport iv.inverterGeneratedPower iv.batteryDischarge eff hpos
      refine foldl_preserves
        (fun cs : List (String × ConsumerStats) =>
          ∀ e ∈ cs, e.2.total = e.2.fromInverter + e.2.fromBattery + e.2.fromGrid)
        _ ?_ _ acc.2 hacc
      · intro cs b hcs
        by_cases hb : b.2 ≤ 0
        · rw [if_pos hb]; exact hcs
        · rw [if_neg hb]
          refine @updateConsumer_preserves
            (fun c : ConsumerStats => c.total = c.fromInverter + c.fromBattery + c.fromGrid)
            _ ?_ cs b.1 hcs
          intro c hc
          by_cases hcons : iv.inverterGeneratedPower < 0 ∧ b.1 ≠ "shared"
          · rw [if_pos hcons]
            simp only
            linear_combination hc - b.2 * hsum
          · rw [if_neg hcons]
            simp only
            linear_combination hc - b.2 * hsum

/-- C1: in the final statistics of an analysis pass, every consumer's
`Total` (the synthetic Shared Usage consumer included) equals the sum of
its three attributed shares `FromInverter + FromBattery + FromGrid` — an
exact identity of the accumulation arithmetic, for every input. -/
theorem consumerTotal_eq_sum_of_sources (cfg : Config) (ivs : List IntervalData)
    (lowTariff : Bool) :
    ∀ cs ∈ (calculateStats cfg ivs lowTariff).consumers,
      cs.total = cs.fromInverter + cs.fromBattery + cs.fromGrid := by
  intro cs hcs
  rw [calculateStats] at hcs
  simp only [List.mem_map] at hcs
  rcases hcs with ⟨e, he, rfl⟩
  refine foldl_preserves
    (fun acc : EnergyStats × List (String × ConsumerStats) =>
      ∀ x ∈ acc.2, x.2.total = x.2.fromInverter + x.2.fromBattery + x.2.fromGrid)
    (processInterval cfg lowTariff)
    (fun acc iv h => processInterval_preserves cfg lowTariff acc iv h) ivs _ ?_ e he
  intro x hx
  rcases List.mem_append.mp hx with hx | hx
  · rcases List.mem_map.mp hx with ⟨cid, _, rfl⟩
    simp [ConsumerStats.zero]
  · rcases List.mem_singleton.mp hx with rfl
    simp [ConsumerStats.zero]

/-- C1 witness: in a trivial analysis (no configured consumers, no
intervals) the lone Shared Usage consumer satisfies the identity. -/
theorem consumerTotal_eq_sum_of_sources_witness :
    ConsumerStats.zero ∈ (calculateStats (mkTariffCfg 0 0) [] true).consumers ∧
    ConsumerStats.zero.total = ConsumerStats.zero.fromInverter +
      ConsumerStats.zero.fromBattery + ConsumerStats.zero.fromGrid :=
  ⟨List.mem_singleton.mpr rfl,
    consumerTotal_eq_sum_of_sources (mkTariffCfg 0 0) [] true ConsumerStats.zero
      (List.mem_singleton.mpr rfl)⟩

/-- Coverage of a cons. -/
theorem coveredBy_cons (a : DateRange) (l : List DateRange) (d : Int) :
    coveredBy (a :: l) d ↔ a.mem d ∨ coveredBy l d := by
  simp [coveredBy]

/-- Coverage only depends on the ranges present, not their order. -/
theorem coveredBy_perm {l1 l2 : List DateRange} (h : l1.Perm l2) (d : Int) :
    coveredBy l1 d ↔ coveredBy l2 d := by
  unfold coveredBy
  constructor
  · rintro ⟨r, hr, hm⟩; exact ⟨r, h.mem_iff.mp hr, hm⟩
  · rintro ⟨r, hr, hm⟩; exact ⟨r, h.mem_iff.mpr hr, hm⟩

/-- Merging an overlapping-or-adjacent range into `last` covers exactly
the union of the two ranges. -/
theorem mem_merge_iff (last c : DateRange) (hlc : last.start ≤ c.start)
    (hc : c.start ≤ last.stop + 1) (d : Int) :
    (⟨last.start, max last.stop c.stop⟩ : DateRange).mem d ↔ last.mem d ∨ c.mem d := by
  simp only [DateRange.mem, leStart] at *
  rcases le_total last.stop c.stop with hm | hm
  · rw [max_eq_right hm]; omega
  · rw [max_eq_left hm]; omega

/-- The fold of `MergeRanges` preserves day coverage on sorted input. -/
theorem mergeAux_cover : ∀ (rest : List DateRange) (last : DateRange),
    List.Sorted leStart (last :: rest) →
    ∀ d, (coveredBy (mergeAux last rest) d ↔ coveredBy (last :: rest) d) := by
  intro rest
  induction rest with
  | nil => intro last _ d; rw [mergeAux]
  | cons c rest ih =>
    intro last hs d
    have hs1 := List.sorted_cons.mp hs
    have hlc : leStart last c := hs1.1 c (List.mem_cons_self _ _)
    rw [mergeAux]
    by_cases hc : c.start ≤ last.stop + 1
    · rw [if_pos hc]
      have hs2 : List.Sorted leStart ((⟨last.start, max last.stop c.stop⟩ : DateRange) :: rest) := by
        refine List.sorted_cons.mpr ⟨?_, (List.sorted_cons.mp hs1.2).2⟩
        intro b hb
        exact hs1.1 b (List.mem_cons_of_mem _ hb)
      rw [ih _ hs2 d, coveredBy_cons, coveredBy_cons, coveredBy_cons,
        mem_merge_iff last c hlc hc d]
      tauto
    · rw [if_neg hc, coveredBy_cons, coveredBy_cons, coveredBy_cons, ih c hs1.2 d,
        coveredBy_cons]

/-- The fold of `MergeRanges` emits a first range starting where `last`
starts and ending at or after `last`'s end. -/
theorem mergeAux_head : ∀ (rest : List DateRange) (last : DateRange),
    ∃ e tl, mergeAux last rest = ⟨last.start, e⟩ :: tl ∧ last.stop ≤ e := by
  intro rest
  induction rest with
  | nil =>
    intro last
    exact ⟨last.stop, [], by rw [mergeAux], le_refl _⟩
  | cons c rest ih =>
    intro last
    rw [mergeAux]
    by_cases hc : c.start ≤ last.stop + 1
    · rw [if_pos hc]
      obtain ⟨e, tl, heq, he⟩ := ih ⟨last.start, max last.stop c.stop⟩
      exact ⟨e, tl, heq, le_trans (le_max_left _ _) he⟩
    · rw [if_neg hc]
      exact ⟨last.stop, mergeAux c rest, rfl, le_refl _⟩

/-- The fold of `MergeRanges` on sorted, valid input yields valid ranges
separated by true gaps (next start strictly beyond stop + 1 day). -/
theorem mergeAux_chain : ∀ (rest : List DateRange) (last : DateRange),
    List.Sorted leStart (last :: rest) → (∀ r ∈ last :: rest, r.Valid) →
    List.Chain' (fun a b : DateRange => a.stop + 1 < b.start) (mergeAux last rest) ∧
    (∀ r ∈ mergeAux last rest, r.Valid) := by
  intro rest
  induction rest with
  | nil =>
    intro last _ hv
    rw [mergeAux]
    exact ⟨List.chain'_singleton _, by simpa using hv⟩
  | cons c rest ih =>
    intro last hs hv
    have hs1 := List.sorted_cons.mp hs
    rw [mergeAux]
    by_cases hc : c.start ≤ last.stop + 1
    · rw [if_pos hc]
      refine ih ⟨last.start, max last.stop c.stop⟩ ?_ ?_
      · refine List.sorted_cons.mpr ⟨?_, (List.sorted_cons.mp hs1.2).2⟩
        intro b hb
        exact hs1.1 b (List.mem_cons_of_mem _ hb)
      · intro r hr
        rcases List.mem_cons.mp hr with rfl | hr
        · have hlv := hv last (List.mem_cons_self _ _)
          simp only [DateRange.Valid] at hlv ⊢
          exact le_trans hlv (le_max_left _ _)
        · exact hv r (List.mem_cons_of_mem _ (List.mem_cons_of_mem _ hr))
    · rw [if_neg hc]
      obtain ⟨hch, hval⟩ := ih c hs1.2 (fun r hr => hv r (List.mem_cons_of_mem _ hr))
      obtain ⟨e, tl, heq, _⟩ := mergeAux_head rest c
      constructor
      · rw [heq]
        rw [heq] at hch
        refine List.chain'_cons.mpr ⟨?_, hch⟩
        show last.stop + 1 < c.start
        omega
      · intro r hr
        rcases List.mem_cons.mp hr with rfl | hr
        · exact hv r (List.mem_cons_self _ _)
        · exact hval r hr

/-- In a gap-separated valid list, every range after the head starts
strictly beyond the head's stop + 1. -/
theorem chainGap_rest : ∀ (t : List DateRange) (h : DateRange),
    List.Chain' (fun a b : DateRange => a.stop + 1 < b.start) (h :: t) →
    (∀ r ∈ h :: t, r.Valid) → ∀ r ∈ t, h.stop + 1 < r.start := by
  intro t
  induction t with
  | nil => intro h _ _ r hr; exact absurd hr (List.not_mem_nil r)
  | cons b t ih =>
    intro h hch hv r hr
    have hhb : h.stop + 1 < b.start := (List.chain'_cons.mp hch).1
    rcases List.mem_cons.mp hr with rfl | hr
    · exact hhb
    · have hr2 := ih b (List.chain'_cons.mp hch).2
        (fun x hx => hv x (List.mem_cons_of_mem _ hx)) r hr
      have hbv : b.Valid := hv b (List.mem_cons_of_mem _ (List.mem_cons_self _ _))
      simp only [DateRange.Valid] at hbv
      omega

/-- A gap-separated list of valid ranges is determined by the set of days
it covers. -/
theorem canonical_ext : ∀ (l1 l2 : List DateRange),
    List.Chain' (fun a b : DateRange => a.stop + 1 < b.start) l1 → (∀ r ∈ l1, r.Valid) →
    List.Chain' (fun a b : DateRange => a.stop + 1 < b.start) l2 → (∀ r ∈ l2, r.Valid) →
    (∀ d, coveredBy l1 d ↔ coveredBy l2 d) → l1 = l2 := by
  intro l1
  induction l1 with
  | nil =>
    intro l2 _ _ _ hv2 hcov
    cases l2 with
    | nil => rfl
    | cons h2 t2 =>
      exfalso
      have hm : coveredBy (h2 :: t2) h2.start :=
        ⟨h2, List.mem_cons_self _ _, le_refl _, hv2 h2 (List.mem_cons_self _ _)⟩
      obtain ⟨r, hr, _⟩ := (hcov h2.start).mpr hm
      exact absurd hr (List.not_mem_nil r)
  | cons h1 t1 ih =>
    intro l2 hc1 hv1 hc2 hv2 hcov
    cases l2 with
    | nil =>
      exfalso
      have hm : coveredBy (h1 :: t1) h1.start :=
        ⟨h1, List.mem_cons_self _ _, le_refl _, hv1 h1 (List.mem_cons_self _ _)⟩
      obtain ⟨r, hr, _⟩ := (hcov h1.start).mp hm
      exact absurd hr (List.not_mem_nil r)
    | cons h2 t2 =>
      have k1 := chainGap_rest t1 h1 hc1 hv1
      have k2 := chainGap_rest t2 h2 hc2 hv2
      have hv1h : h1.Valid := hv1 h1 (List.mem_cons_self _ _)
      have hv2h : h2.Valid := hv2 h2 (List.mem_cons_self _ _)
      simp only [DateRange.Valid] at hv1h hv2h
      have hs12 : h2.start ≤ h1.start := by
        obtain ⟨r, hr, hm⟩ := (hcov h1.start).mp
          ⟨h1, List.mem_cons_self _ _, le_refl _, hv1h⟩
        simp only [DateRange.mem] at hm
        rcases List.mem_cons.mp hr with rfl | hr
        · exact hm.1
        · have := k2 r hr
          omega
      have hs21 : h1.start ≤ h2.start := by
        obtain ⟨r, hr, hm⟩ := (hcov h2.start).mpr
          ⟨h2, List.mem_cons_self _ _, le_refl _, hv2h⟩
        simp only [DateRange.mem] at hm
        rcases List.mem_cons.mp hr with rfl | hr
        · exact hm.1
        · have := k1 r hr
          omega
      have hstart : h1.start = h2.start := le_antisymm hs21 hs12
      have hst12 : h1.stop ≤ h2.stop := by
        by_contra hlt
        push_neg at hlt
        obtain ⟨r, hr, hm⟩ := (hcov (h2.stop + 1)).mp
          ⟨h1, List.mem_cons_self _ _, by simp only [DateRange.mem]; omega⟩
        simp only [DateRange.mem] at hm
        rcases List.mem_cons.mp hr with rfl | hr
        · omega
        · have := k2 r hr
          omega
      have hst21 : h2.stop ≤ h1.stop := by
        by_contra hlt
        push_neg at hlt
        obtain ⟨r, hr, hm⟩ := (hcov (h1.stop + 1)).mpr
          ⟨h2, List.mem_cons_self _ _, by simp only [DateRange.mem]; omega⟩
        simp only [DateRange.mem] at hm
        rcases List.mem_cons.mp hr with rfl | hr
        · omega
        · have := k1 r hr
          omega
      have hstop : h1.stop = h2.stop := le_antisymm hst12 hst21
      have hcovt : ∀ d, coveredBy t1 d ↔ coveredBy t2 d := by
        intro d
        constructor
        · rintro ⟨r, hr, hm⟩
          have hk := k1 r hr
          obtain ⟨r2, hr2, hm2⟩ := (hcov d).mp ⟨r, List.mem_cons_of_mem _ hr, hm⟩
          rcases List.mem_cons.mp hr2 with rfl | hr2
          · exfalso
            simp only [DateRange.mem] at hm hm2
            omega
          · exact ⟨r2, hr2, hm2⟩
        · rintro ⟨r, hr, hm⟩
          have hk := k2 r hr
          obtain ⟨r2, hr2, hm2⟩ := (hcov d).mpr ⟨r, List.mem_cons_of_mem _ hr, hm⟩
          rcases List.mem_cons.mp hr2 with rfl | hr2
          · exfalso
            simp only [DateRange.mem] at hm hm2
            omega
          · exact ⟨r2, hr2, hm2⟩
      have htail := ih t2 hc1.tail
        (fun r hr => hv1 r (List.mem_cons_of_mem _ hr)) hc2.tail
        (fun r hr => hv2 r (List.mem_cons_of_mem _ hr)) hcovt
      have hhead : h1 = h2 := by
        cases h1; cases h2
        simp only at hstart hstop
        simp [hstart, hstop]
      rw [hhead, htail]

/-- `MergeRanges` of valid input is gap-separated, valid and covers the
same days as its input. -/
theorem MergeRanges_canon (l : List DateRange) (hv : ∀ r ∈ l, r.Valid) :
    List.Chain' (fun a b : DateRange => a.stop + 1 < b.start) (MergeRanges l) ∧
    (∀ r ∈ MergeRanges l, r.Valid) ∧
    (∀ d, coveredBy (MergeRanges l) d ↔ coveredBy l d) := by
  have hperm : (sortByStart l).Perm l := List.perm_insertionSort leStart l
  have hsorted : List.Sorted leStart (sortByStart l) := List.sorted_insertionSort leStart l
  have hvs : ∀ r ∈ sortByStart l, r.Valid := fun r hr => hv r (hperm.mem_iff.mp hr)
  unfold MergeRanges
  rcases hs : sortByStart l with _ | ⟨h, t⟩
  · rw [hs] at hperm
    have : l = [] := hperm.symm.eq_nil
    subst this
    exact ⟨List.chain'_nil, by simp, fun d => Iff.rfl⟩
  · rw [hs] at hperm hsorted hvs
    obtain ⟨hch, hval⟩ := mergeAux_chain t h hsorted hvs
    refine ⟨hch, hval, fun d => ?_⟩
    exact (mergeAux_cover t h hsorted d).trans (coveredBy_perm hperm d)

/-- C4: `MergeRanges` is idempotent, permutation-invariant, and canonical:
its output consists of valid ranges strictly separated by more than one
day (sorted, non-overlapping, adjacency coalesced), it covers exactly the
input's days, and it is the unique — hence minimal — such list. -/
theorem mergeRanges_spec (l : List DateRange) (hv : ∀ r ∈ l, r.Valid) :
    MergeRanges (MergeRanges l) = MergeRanges l ∧
    (∀ p, p.Perm l → MergeRanges p = MergeRanges l) ∧
    List.Chain' (fun a b : DateRange => a.stop + 1 < b.start) (MergeRanges l) ∧
    (∀ r ∈ MergeRanges l, r.Valid) ∧
    (∀ d, coveredBy (MergeRanges l) d ↔ coveredBy l d) ∧
    (∀ m, List.Chain' (fun a b : DateRange => a.stop + 1 < b.start) m →
      (∀ r ∈ m, r.Valid) → (∀ d, coveredBy m d ↔ coveredBy l d) → m = MergeRanges l) := by
  obtain ⟨hch, hval, hcov⟩ := MergeRanges_canon l hv
  have huniq : ∀ m, List.Chain' (fun a b : DateRange => a.stop + 1 < b.start) m →
      (∀ r ∈ m, r.Valid) → (∀ d, coveredBy m d ↔ coveredBy l d) → m = MergeRanges l := by
    intro m hmch hmv hmcov
    exact canonical_ext m (MergeRanges l) hmch hmv hch hval
      (fun d => (hmcov d).trans (hcov d).symm)
  refine ⟨?_, ?_, hch, hval, hcov, huniq⟩
  · obtain ⟨hch2, hval2, hcov2⟩ := MergeRanges_canon (MergeRanges l) hval
    exact huniq _ hch2 hval2 (fun d => (hcov2 d).trans (hcov d))
  · intro p hp
    have hvp : ∀ r ∈ p, r.Valid := fun r hr => hv r (hp.mem_iff.mp hr)
    obtain ⟨hchp, hvalp, hcovp⟩ := MergeRanges_canon p hvp
    exact huniq _ hchp hvalp (fun d => (hcovp d).trans (coveredBy_perm hp d))

/-- C4 witness: the properties at a concrete unsorted, overlapping,
adjacent input. -/
theorem mergeRanges_spec_witness :
    MergeRanges (MergeRanges [⟨4, 6⟩, ⟨0, 2⟩, ⟨3, 3⟩, ⟨10, 12⟩]) =
      MergeRanges [⟨4, 6⟩, ⟨0, 2⟩, ⟨3, 3⟩, ⟨10, 12⟩] ∧
    MergeRanges [⟨0, 2⟩, ⟨10, 12⟩, ⟨3, 3⟩, ⟨4, 6⟩] =
      MergeRanges [⟨4, 6⟩, ⟨0, 2⟩, ⟨3, 3⟩, ⟨10, 12⟩] ∧
    MergeRanges [⟨4, 6⟩, ⟨0, 2⟩, ⟨3, 3⟩, ⟨10, 12⟩] = [⟨0, 6⟩, ⟨10, 12⟩] := by
  have h := mergeRanges_spec [⟨4, 6⟩, ⟨0, 2⟩, ⟨3, 3⟩, ⟨10, 12⟩] (by decide)
  exact ⟨h.1, h.2.1 [⟨0, 2⟩, ⟨10, 12⟩, ⟨3, 3⟩, ⟨4, 6⟩] (by decide), by decide⟩

/-- Coverage of the empty range list. -/
theorem coveredBy_nil (d : Int) : ¬ coveredBy [] d := by
  rintro ⟨r, hr, _⟩
  exact absurd hr (List.not_mem_nil r)

/-- `subtractRange` on a valid base and valid cut: the pieces are valid
sub-ranges of the base, they cover exactly the base's days outside the
cut, and they are pairwise disjoint. -/
theorem subtractRange_spec (base cut : DateRange) (hb : base.Valid) (hcut : cut.Valid) :
    (∀ p ∈ subtractRange base cut, p.Valid ∧ base.start ≤ p.start ∧ p.stop ≤ base.stop) ∧
    (∀ d, coveredBy (subtractRange base cut) d ↔ (base.mem d ∧ ¬ cut.mem d)) ∧
    List.Pairwise (fun a b => ∀ d, ¬(a.mem d ∧ b.mem d)) (subtractRange base cut) := by
  simp only [DateRange.Valid] at hb hcut
  unfold subtractRange
  by_cases hov : base.OverlapsR cut
  · rw [if_pos hov]
    simp only [DateRange.OverlapsR] at hov
    by_cases hl : base.start < cut.start <;> by_cases hr : cut.stop < base.stop <;>
      simp only [if_pos, if_neg, hl, hr, ite_true, ite_false, List.singleton_append,
        List.nil_append, List.append_nil] <;>
      refine ⟨?_, ?_, ?_⟩
    · intro p hp
      rcases List.mem_cons.mp hp with rfl | hp
      · simp only [DateRange.Valid]; omega
      · rcases List.mem_singleton.mp hp with rfl
        simp only [DateRange.Valid]; omega
    · intro d
      rw [coveredBy_cons, coveredBy_cons]
      simp only [DateRange.mem]
      have := coveredBy_nil d
      constructor
      · rintro (h | h | h) <;> first | omega | exact absurd h this
      · intro h; omega
    · refine List.pairwise_cons.mpr ⟨?_, List.pairwise_singleton _ _⟩
      intro b hb2 d
      rcases List.mem_singleton.mp hb2 with rfl
      simp only [DateRange.mem]
      omega
    · intro p hp
      rcases List.mem_singleton.mp hp with rfl
      simp only [DateRange.Valid]; omega
    · intro d
      rw [coveredBy_cons]
      simp only [DateRange.mem]
      have := coveredBy_nil d
      constructor
      · rintro (h | h)
        · omega
        · exact absurd h this
      · intro h; omega
    · exact List.pairwise_singleton _ _
    · intro p hp
      rcases List.mem_singleton.mp hp with rfl
      simp only [DateRange.Valid]; omega
    · intro d
      rw [coveredBy_cons]
      simp only [DateRange.mem]
      have := coveredBy_nil d
      constructor
      · rintro (h | h)
        · omega
        · exact absurd h this
      · intro h; omega
    · exact List.pairwise_singleton _ _
    · intro p hp
      exact absurd hp (List.not_mem_nil p)
    · intro d
      have := coveredBy_nil d
      simp only [DateRange.mem]
      constructor
      · intro h; exact absurd h this
      · intro h; omega
    · exact List.Pairwise.nil
  · rw [if_neg hov]
    simp only [DateRange.OverlapsR, not_and_or, not_le] at hov
    refine ⟨?_, ?_, List.pairwise_singleton _ _⟩
    · intro p hp
      rcases List.mem_singleton.mp hp with rfl
      exact ⟨hb, le_refl _, le_refl _⟩
    · intro d
      rw [coveredBy_cons]
      simp only [DateRange.mem]
      have := coveredBy_nil d
      constructor
      · rintro (h | h)
        · omega
        · exact absurd h this
      · intro h; omega

/-- One step of the `FindGaps` fold: subtracting one cached range from a
disjoint family of valid gaps keeps validity, bounds and disjointness, and
removes exactly the cut's days from the covered set. -/
theorem subtractStep_spec (gaps : List DateRange) (c : DateRange) (lo hi : Int)
    (hc : c.Valid)
    (hg : ∀ g ∈ gaps, g.Valid ∧ lo ≤ g.start ∧ g.stop ≤ hi)
    (hp : List.Pairwise (fun a b => ∀ d, ¬(a.mem d ∧ b.mem d)) gaps) :
    (∀ g ∈ gaps.flatMap (fun g => subtractRange g c),
      g.Valid ∧ lo ≤ g.start ∧ g.stop ≤ hi) ∧
    List.Pairwise (fun a b => ∀ d, ¬(a.mem d ∧ b.mem d))
      (gaps.flatMap (fun g => subtractRange g c)) ∧
    (∀ d, coveredBy (gaps.flatMap (fun g => subtractRange g c)) d ↔
      (coveredBy gaps d ∧ ¬ c.mem d)) := by
  refine ⟨?_, ?_, ?_⟩
  · intro g hgm
    obtain ⟨b, hbm, hpc⟩ := List.mem_flatMap.mp hgm
    obtain ⟨hbv, hlo, hhi⟩ := hg b hbm
    obtain ⟨hpv, hps, hpe⟩ := (subtractRange_spec b c hbv hc).1 g hpc
    exact ⟨hpv, le_trans hlo hps, le_trans hpe hhi⟩
  · induction gaps with
    | nil => exact List.Pairwise.nil
    | cons g gs ih =>
      rw [List.flatMap_cons]
      have hgv := (hg g (List.mem_cons_self _ _)).1
      refine List.pairwise_append.mpr ⟨(subtractRange_spec g c hgv hc).2.2, ?_, ?_⟩
      · exact ih (fun x hx => hg x (List.mem_cons_of_mem _ hx)) (List.pairwise_cons.mp hp).2
      · intro a ha b hbm d hd
        obtain ⟨g2, hg2, hbp⟩ := List.mem_flatMap.mp hbm
        have hdisj := (List.pairwise_cons.mp hp).1 g2 hg2 d
        have hag : a.mem d → g.mem d := by
          intro hmem
          have := ((subtractRange_spec g c hgv hc).2.1 d).mp ⟨a, ha, hmem⟩
          exact this.1
        have hbg : b.mem d → g2.mem d := by
          intro hmem
          have hg2v := (hg g2 (List.mem_cons_of_mem _ hg2)).1
          have := ((subtractRange_spec g2 c hg2v hc).2.1 d).mp ⟨b, hbp, hmem⟩
          exact this.1
        exact hdisj ⟨hag hd.1, hbg hd.2⟩
  · intro d
    constructor
    · rintro ⟨p, hpm, hmem⟩
      obtain ⟨g, hgm, hpc⟩ := List.mem_flatMap.mp hpm
      have hgv := (hg g hgm).1
      have := ((subtractRange_spec g c hgv hc).2.1 d).mp ⟨p, hpc, hmem⟩
      exact ⟨⟨g, hgm, this.1⟩, this.2⟩
    · rintro ⟨⟨g, hgm, hmem⟩, hnc⟩
      have hgv := (hg g hgm).1
      obtain ⟨p, hpc, hpd⟩ := ((subtractRange_spec g c hgv hc).2.1 d).mpr ⟨hmem, hnc⟩
      exact ⟨p, List.mem_flatMap.mpr ⟨g, hgm, hpc⟩, hpd⟩

/-- The whole `FindGaps` fold: subtracting every cached range removes
exactly the cached days. -/
theorem subtractFold_spec : ∀ (cs : List DateRange) (gaps : List DateRange) (lo hi : Int),
    (∀ r ∈ cs, r.Valid) →
    (∀ g ∈ gaps, g.Valid ∧ lo ≤ g.start ∧ g.stop ≤ hi) →
    List.Pairwise (fun a b => ∀ d, ¬(a.mem d ∧ b.mem d)) gaps →
    (∀ g ∈ cs.foldl (fun gaps c => gaps.flatMap (fun g => subtractRange g c)) gaps,
      g.Valid ∧ lo ≤ g.start ∧ g.stop ≤ hi) ∧
    List.Pairwise (fun a b => ∀ d, ¬(a.mem d ∧ b.mem d))
      (cs.foldl (fun gaps c => gaps.flatMap (fun g => subtractRange g c)) gaps) ∧
    (∀ d, coveredBy (cs.foldl (fun gaps c => gaps.flatMap (fun g => subtractRange g c)) gaps) d ↔
      (coveredBy gaps d ∧ ¬ coveredBy cs d)) := by
  intro cs
  induction cs with
  | nil =>
    intro gaps lo hi _ hg hp
    refine ⟨hg, hp, fun d => ?_⟩
    have := coveredBy_nil d
    tauto
  | cons c cs ih =>
    intro gaps lo hi hv hg hp
    have hc : c.Valid := hv c (List.mem_cons_self _ _)
    obtain ⟨hg2, hp2, hcov2⟩ := subtractStep_spec gaps c lo hi hc hg hp
    obtain ⟨hg3, hp3, hcov3⟩ := ih _ lo hi (fun r hr => hv r (List.mem_cons_of_mem _ hr)) hg2 hp2
    refine ⟨hg3, hp3, fun d => ?_⟩
    rw [List.foldl_cons] at *
    rw [hcov3 d, hcov2 d, coveredBy_cons]
    tauto

/-- C2: `FindGaps(cached, from, to)` together with `cached` covers the
requested window (clipped to end no later than yesterday) exactly once:
every window day is in a gap or a cached range, every gap is a valid
sub-range of the clipped window, gaps never share a day with a cached
range, and gaps are pairwise disjoint. -/
theorem findGaps_spec (today : Int) (cached : List DateRange) (f t : Int)
    (hv : ∀ r ∈ cached, r.Valid) :
    (∀ d, f ≤ d → d ≤ (if today ≤ t then today - 1 else t) →
      coveredBy (FindGaps today cached f t) d ∨ coveredBy cached d) ∧
    (∀ g ∈ FindGaps today cached f t,
      g.Valid ∧ f ≤ g.start ∧ g.stop ≤ (if today ≤ t then today - 1 else t)) ∧
    (∀ g ∈ FindGaps today cached f t, ∀ c ∈ cached, ∀ d, ¬(g.mem d ∧ c.mem d)) ∧
    List.Pairwise (fun a b => ∀ d, ¬(a.mem d ∧ b.mem d)) (FindGaps today cached f t) := by
  unfold FindGaps
  by_cases hempty : (if today ≤ t then today - 1 else t) < f
  · rw [if_pos hempty]
    refine ⟨fun d h1 h2 => absurd (le_trans h1 h2) (not_le.mpr hempty), ?_, ?_, List.Pairwise.nil⟩
    · intro g hg; exact absurd hg (List.not_mem_nil g)
    · intro g hg; exact absurd hg (List.not_mem_nil g)
  · rw [if_neg hempty]
    push_neg at hempty
    obtain ⟨hg, hp, hcov⟩ := subtractFold_spec cached
      [⟨f, if today ≤ t then today - 1 else t⟩] f (if today ≤ t then today - 1 else t) hv
      (by
        intro g hgm
        rcases List.mem_singleton.mp hgm with rfl
        exact ⟨hempty, le_refl _, le_refl _⟩)
      (List.pairwise_singleton _ _)
    refine ⟨?_, hg, ?_, hp⟩
    · intro d h1 h2
      by_cases hcc : coveredBy cached d
      · exact Or.inr hcc
      · refine Or.inl ((hcov d).mpr ⟨?_, hcc⟩)
        rw [coveredBy_cons]
        exact Or.inl ⟨h1, h2⟩
    · intro g hgm c hcm d hd
      have h1 : coveredBy (cached.foldl
          (fun gaps c => gaps.flatMap (fun g => subtractRange g c))
          [⟨f, if today ≤ t then today - 1 else t⟩]) d := ⟨g, hgm, hd.1⟩
      exact ((hcov d).mp h1).2 ⟨c, hcm, hd.2⟩

/-- C2 witness: concrete cached ranges and window, today = 100: gaps plus
cached cover the clipped window `[0, 9]` disjointly. -/
theorem findGaps_spec_witness :
    (∀ d, (0 : Int) ≤ d → d ≤ (if (100 : Int) ≤ 9 then 100 - 1 else 9) →
      coveredBy (FindGaps 100 [⟨2, 4⟩, ⟨7, 8⟩] 0 9) d ∨ coveredBy [⟨2, 4⟩, ⟨7, 8⟩] d) ∧
    (∀ g ∈ FindGaps 100 [⟨2, 4⟩, ⟨7, 8⟩] 0 9,
      g.Valid ∧ 0 ≤ g.start ∧ g.stop ≤ (if (100 : Int) ≤ 9 then 100 - 1 else 9)) ∧
    (∀ g ∈ FindGaps 100 [⟨2, 4⟩, ⟨7, 8⟩] 0 9, ∀ c ∈ [(⟨2, 4⟩ : DateRange), ⟨7, 8⟩],
      ∀ d, ¬(g.mem d ∧ c.mem d)) ∧
    List.Pairwise (fun a b => ∀ d, ¬(a.mem d ∧ b.mem d)) (FindGaps 100 [⟨2, 4⟩, ⟨7, 8⟩] 0 9) :=
  findGaps_spec 100 [⟨2, 4⟩, ⟨7, 8⟩] 0 9 (by decide)

/-- Appending under one key leaves every other key's bucket unchanged. -/
theorem bucketApp_get_ne {κ : Type} [DecidableEq κ] {α : Type}
    (m : List (κ × List α)) (k k2 : κ) (x : α) (hne : k2 ≠ k) :
    bucketGet (bucketApp m k x) k2 = bucketGet m k2 := by
  induction m with
  | nil => simp [bucketApp, bucketGet, hne.symm]
  | cons e rest ih =>
    obtain ⟨ek, ev⟩ := e
    rw [bucketApp]
    by_cases hek : ek = k
    · rw [if_pos hek, bucketGet, bucketGet]
      have : ¬ ek = k2 := by rw [hek]; exact fun h => hne h.symm
      rw [if_neg this, if_neg this]
    · rw [if_neg hek, bucketGet, bucketGet]
      by_cases hek2 : ek = k2
      · rw [if_pos hek2, if_pos hek2]
      · rw [if_neg hek2, if_neg hek2]
        exact ih

/-- Appending an element satisfying the per-key property preserves the
property across the store. -/
theorem bucketApp_integrity {κ : Type} [DecidableEq κ] {α : Type} (P : κ → α → Prop)
    (m : List (κ × List α)) (k : κ) (x : α)
    (hm : ∀ e ∈ m, ∀ y ∈ e.2, P e.1 y) (hx : P k x) :
    ∀ e ∈ bucketApp m k x, ∀ y ∈ e.2, P e.1 y := by
  induction m with
  | nil =>
    intro e he y hy
    rw [bucketApp] at he
    rcases List.mem_singleton.mp he with rfl
    rcases List.mem_singleton.mp hy with rfl
    exact hx
  | cons e0 rest ih =>
    obtain ⟨ek, ev⟩ := e0
    intro e he y hy
    rw [bucketApp] at he
    by_cases hek : ek = k
    · rw [if_pos hek] at he
      rcases List.mem_cons.mp he with h | he
      · subst h
        rcases List.mem_append.mp hy with hy | hy
        · exact hm (ek, ev) (List.mem_cons_self _ _) y hy
        · rcases List.mem_singleton.mp hy with rfl
          rw [hek]
          exact hx
      · exact hm e (List.mem_cons_of_mem _ he) y hy
    · rw [if_neg hek] at he
      rcases List.mem_cons.mp he with h | he
      · subst h
        exact hm (ek, ev) (List.mem_cons_self _ _) y hy
      · exact ih (fun x2 hx2 => hm x2 (List.mem_cons_of_mem _ hx2)) e he y hy

/-- Every entry after `setRanges` is an old entry or the new binding. -/
theorem setRanges_mem (m : List (String × List DateRange)) (sid : String)
    (rs : List DateRange) :
    ∀ e ∈ setRanges m sid rs, e ∈ m ∨ e = (sid, rs) := by
  induction m with
  | nil =>
    intro e he
    rw [setRanges] at he
    exact Or.inr (List.mem_singleton.mp he)
  | cons e0 rest ih =>
    obtain ⟨ek, ev⟩ := e0
    intro e he
    rw [setRanges] at he
    by_cases hek : ek = sid
    · rw [if_pos hek] at he
      rcases List.mem_cons.mp he with h | he
      · subst h; exact Or.inr (by rw [hek])
      · exact Or.inl (List.mem_cons_of_mem _ he)
    · rw [if_neg hek] at he
      rcases List.mem_cons.mp he with h | he
      · subst h; exact Or.inl (List.mem_cons_self _ _)
      · rcases ih e he with h | h
        · exact Or.inl (List.mem_cons_of_mem _ h)
        · exact Or.inr h

/-- The `MergeRanges` fold never raises the maximal stop of its input. -/
theorem mergeAux_stop_bound : ∀ (rest : List DateRange) (last : DateRange) (B : Int),
    last.stop ≤ B → (∀ r ∈ rest, r.stop ≤ B) →
    ∀ r ∈ mergeAux last rest, r.stop ≤ B := by
  intro rest
  induction rest with
  | nil =>
    intro last B hl _ r hr
    rw [mergeAux] at hr
    rcases List.mem_singleton.mp hr with rfl
    exact hl
  | cons c cs ih =>
    intro last B hl hrest r hr
    rw [mergeAux] at hr
    by_cases hc : c.start ≤ last.stop + 1
    · rw [if_pos hc] at hr
      refine ih _ B ?_ (fun x hx => hrest x (List.mem_cons_of_mem _ hx)) r hr
      exact max_le hl (hrest c (List.mem_cons_self _ _))
    · rw [if_neg hc] at hr
      rcases List.mem_cons.mp hr with rfl | hr
      · exact hl
      · exact ih c B (hrest c (List.mem_cons_self _ _))
          (fun x hx => hrest x (List.mem_cons_of_mem _ hx)) r hr

/-- `MergeRanges` never raises the maximal stop of its input. -/
theorem MergeRanges_stop_bound (l : List DateRange) (B : Int)
    (h : ∀ r ∈ l, r.stop ≤ B) : ∀ r ∈ MergeRanges l, r.stop ≤ B := by
  have hperm : (sortByStart l).Perm l := List.perm_insertionSort leStart l
  have hs : ∀ r ∈ sortByStart l, r.stop ≤ B := fun r hr => h r (hperm.mem_iff.mp hr)
  unfold MergeRanges
  rcases hsl : sortByStart l with _ | ⟨hd, tl⟩
  · intro r hr; exact absurd hr (List.not_mem_nil r)
  · rw [hsl] at hs
    exact mergeAux_stop_bound tl hd B (hs hd (List.mem_cons_self _ _))
      (fun x hx => hs x (List.mem_cons_of_mem _ hx))

/-- Days listed by the retrieval walk lie within the requested bounds. -/
theorem mem_daysFromTo (f t d : Int) (h : d ∈ daysFromTo f t) : f ≤ d ∧ d ≤ t := by
  unfold daysFromTo at h
  obtain ⟨i, hi, rfl⟩ := List.mem_map.mp h
  rw [List.mem_range] at hi
  omega

/-- Accumulating one day's sensor entries preserves a per-point property. -/
theorem addSensorPts_integrity (P : ZevSensorData → Prop)
    (acc : List (String × List ZevSensorData)) (sid : String) (pts : List ZevSensorData)
    (hacc : ∀ e ∈ acc, ∀ p ∈ e.2, P p) (hpts : ∀ p ∈ pts, P p) :
    ∀ e ∈ addSensorPts acc sid pts, ∀ p ∈ e.2, P p := by
  induction acc with
  | nil =>
    intro e he p hp
    rw [addSensorPts] at he
    rcases List.mem_singleton.mp he with rfl
    exact hpts p hp
  | cons e0 rest ih =>
    obtain ⟨ek, ev⟩ := e0
    intro e he p hp
    rw [addSensorPts] at he
    by_cases hek : ek = sid
    · rw [if_pos hek] at he
      rcases List.mem_cons.mp he with h | he
      · subst h
        rcases List.mem_append.mp hp with hp | hp
        · exact hacc (ek, ev) (List.mem_cons_self _ _) p hp
        · exact hpts p hp
      · exact hacc e (List.mem_cons_of_mem _ he) p hp
    · rw [if_neg hek] at he
      rcases List.mem_cons.mp he with h | he
      · subst h
        exact hacc (ek, ev) (List.mem_cons_self _ _) p hp
      · exact ih (fun x hx => hacc x (List.mem_cons_of_mem _ hx)) e he p hp

/-- Member-aware fold invariant: it suffices that each step with an
element of the list preserves the property. -/
theorem foldl_preserves_mem {α β : Type} (P : α → Prop) (l : List β) (step : α → β → α)
    (hstep : ∀ a, ∀ b ∈ l, P a → P (step a b)) : ∀ a, P a → P (l.foldl step a) := by
  induction l with
  | nil => intro a ha; exact ha
  | cons b rest ih =>
    intro a ha
    exact ih (fun a2 b2 hb2 ha2 => hstep a2 b2 (List.mem_cons_of_mem _ hb2) ha2)
      (step a b) (hstep a b (List.mem_cons_self _ _) ha)

/-- Elements of a bucket come from an entry of the store with that key. -/
theorem bucketGet_mem {κ : Type} [DecidableEq κ] {α : Type} (m : List (κ × List α)) (k : κ) :
    ∀ x ∈ bucketGet m k, ∃ e ∈ m, e.1 = k ∧ x ∈ e.2 := by
  induction m with
  | nil => intro x hx; rw [bucketGet] at hx; exact absurd hx (List.not_mem_nil x)
  | cons e0 rest ih =>
    obtain ⟨ek, ev⟩ := e0
    intro x hx
    rw [bucketGet] at hx
    by_cases hek : ek = k
    · rw [if_pos hek] at hx
      exact ⟨(ek, ev), List.mem_cons_self _ _, hek, hx⟩
    · rw [if_neg hek] at hx
      obtain ⟨e, he, hk, hxe⟩ := ih x hx
      exact ⟨e, List.mem_cons_of_mem _ he, hk, hxe⟩

/-- C3: no cache operation ever lets the current day into the cache.
`StoreZevData`/`StoreSensorData` leave every bucket keyed today or later
untouched (today's readings are dropped) and keep every stored point under
its own day; `UpdateZevCachedRanges`/`UpdateSensorCachedRanges` produce
only ranges ending strictly before today, whatever the input range; and
retrieval over a window ending before today returns only readings dated
strictly before today. -/
theorem cache_never_contains_today (today : Int) (c : Cache)
    (data : List ZevData) (sid : String) (sdata : List SensorData) (f t f2 t2 : Int)
    (hzb : ∀ e ∈ c.zevData, ∀ pt ∈ e.2, dayOf pt.createdAt = e.1.1)
    (hsb : ∀ e ∈ c.sensorData, ∀ pt ∈ e.2, dayOf pt.date = e.1.2)
    (hzr : ∀ r ∈ c.zevCachedRanges, r.stop < today)
    (hsr : ∀ e ∈ c.sensorCachedRanges, ∀ r ∈ e.2, r.stop < today)
    (ht2 : t2 < today) :
    (∀ d s, today ≤ d →
      bucketGet (StoreZevData today c data).zevData (d, s) = bucketGet c.zevData (d, s)) ∧
    (∀ e ∈ (StoreZevData today c data).zevData, ∀ pt ∈ e.2, dayOf pt.createdAt = e.1.1) ∧
    (∀ r ∈ (UpdateZevCachedRanges today c f t).zevCachedRanges, r.stop < today) ∧
    (∀ zd ∈ GetZevDataC c f2 t2, ∀ pt ∈ zd.data, dayOf pt.createdAt < today) ∧
    (∀ s d, today ≤ d →
      bucketGet (StoreSensorData today c sid sdata).sensorData (s, d) =
        bucketGet c.sensorData (s, d)) ∧
    (∀ e ∈ (StoreSensorData today c sid sdata).sensorData, ∀ pt ∈ e.2, dayOf pt.date = e.1.2) ∧
    (∀ e ∈ (UpdateSensorCachedRanges today c sid f t).sensorCachedRanges,
      ∀ r ∈ e.2, r.stop < today) ∧
    (∀ pt ∈ GetSensorDataC c sid f2 t2, dayOf pt.date < today) := by
  refine ⟨?_, ?_, ?_, ?_, ?_, ?_, ?_, ?_⟩
  · intro d s hd
    rw [StoreZevData]
    refine foldl_preserves
      (fun m : ZevStore => bucketGet m (d, s) = bucketGet c.zevData (d, s))
      _ ?_ data c.zevData rfl
    intro m zd hm
    refine foldl_preserves
      (fun m2 : ZevStore => bucketGet m2 (d, s) = bucketGet c.zevData (d, s))
      _ ?_ zd.data m hm
    intro m2 pt hm2
    rw [storeZevPoint]
    by_cases hpt : today ≤ dayOf pt.createdAt
    · rw [if_pos hpt]; exact hm2
    · rw [if_neg hpt]
      rw [bucketApp_get_ne m2 (dayOf pt.createdAt, zd.sensorID) (d, s) pt ?_]
      · exact hm2
      · intro hq
        rw [Prod.ext_iff] at hq
        simp only at hq
        omega
  · rw [StoreZevData]
    refine foldl_preserves
      (fun m : ZevStore => ∀ e ∈ m, ∀ pt ∈ e.2, dayOf pt.createdAt = e.1.1)
      _ ?_ data c.zevData hzb
    intro m zd hm
    refine foldl_preserves
      (fun m2 : ZevStore => ∀ e ∈ m2, ∀ pt ∈ e.2, dayOf pt.createdAt = e.1.1)
      _ ?_ zd.data m hm
    intro m2 pt hm2
    rw [storeZevPoint]
    by_cases hpt : today ≤ dayOf pt.createdAt
    · rw [if_pos hpt]; exact hm2
    · rw [if_neg hpt]
      exact bucketApp_integrity (fun k pt2 => dayOf pt2.createdAt = k.1) m2
        (dayOf pt.createdAt, zd.sensorID) pt hm2 rfl
  · rw [UpdateZevCachedRanges]
    by_cases hcl : (if today ≤ t then today - 1 else t) < f
    · rw [if_pos hcl]; exact hzr
    · rw [if_neg hcl]
      intro r hr
      have hb := MergeRanges_stop_bound (c.zevCachedRanges ++ [⟨f, if today ≤ t then today - 1 else t⟩])
        (today - 1) ?_ r hr
      · omega
      · intro x hx
        rcases List.mem_append.mp hx with hx | hx
        · have := hzr x hx; omega
        · rcases List.mem_singleton.mp hx with rfl
          simp only
          by_cases hc : today ≤ t
          · rw [if_pos hc]
          · rw [if_neg hc]; omega
  · intro zd hzd
    rw [GetZevDataC] at hzd
    obtain ⟨e, he, rfl⟩ := List.mem_map.mp hzd
    intro pt hpt
    revert pt
    have hmain : ∀ e2 ∈ (daysFromTo f2 t2).foldl
        (fun acc d =>
          (c.zevData.filterMap (fun e => if e.1.1 = d then some (e.1.2, e.2) else none)).foldl
            (fun a e => addSensorPts a e.1 e.2) acc)
        ([] : List (String × List ZevSensorData)),
        ∀ p ∈ e2.2, dayOf p.createdAt < today := by
      refine foldl_preserves_mem
        (fun acc : List (String × List ZevSensorData) =>
          ∀ e2 ∈ acc, ∀ p ∈ e2.2, dayOf p.createdAt < today)
        (daysFromTo f2 t2) _ ?_ [] (by simp)
      intro acc d hd hacc
      have hdle : d ≤ t2 := (mem_daysFromTo f2 t2 d hd).2
      refine foldl_preserves_mem
        (fun a : List (String × List ZevSensorData) =>
          ∀ e2 ∈ a, ∀ p ∈ e2.2, dayOf p.createdAt < today)
        (c.zevData.filterMap (fun e => if e.1.1 = d then some (e.1.2, e.2) else none))
        _ ?_ acc hacc
      intro a b hb ha
      obtain ⟨orig, horig, hsome⟩ := List.mem_filterMap.mp hb
      have hbv : orig.1.1 = d ∧ b = (orig.1.2, orig.2) := by
        by_cases hq : orig.1.1 = d
        · rw [if_pos hq] at hsome
          exact ⟨hq, (Option.some_injective _ hsome).symm⟩
        · rw [if_neg hq] at hsome
          exact absurd hsome (Option.noConfusion)
      refine addSensorPts_integrity (fun p => dayOf p.createdAt < today) a b.1 b.2 ha ?_
      intro p hp
      rw [hbv.2] at hp
      have := hzb orig horig p hp
      omega
    exact fun pt hpt => hmain e he pt hpt
  · intro s d hd
    rw [StoreSensorData]
    refine foldl_preserves
      (fun m : SensorStore => bucketGet m (s, d) = bucketGet c.sensorData (s, d))
      _ ?_ sdata c.sensorData rfl
    intro m pt hm
    rw [storeSensorPoint]
    by_cases hpt : today ≤ dayOf pt.date
    · rw [if_pos hpt]; exact hm
    · rw [if_neg hpt]
      rw [bucketApp_get_ne m (sid, dayOf pt.date) (s, d) pt ?_]
      · exact hm
      · intro hq
        rw [Prod.ext_iff] at hq
        simp only at hq
        omega
  · rw [StoreSensorData]
    refine foldl_preserves
      (fun m : SensorStore => ∀ e ∈ m, ∀ pt ∈ e.2, dayOf pt.date = e.1.2)
      _ ?_ sdata c.sensorData hsb
    intro m pt hm
    rw [storeSensorPoint]
    by_cases hpt : today ≤ dayOf pt.date
    · rw [if_pos hpt]; exact hm
    · rw [if_neg hpt]
      exact bucketApp_integrity (fun k pt2 => dayOf pt2.date = k.2) m
        (sid, dayOf pt.date) pt hm rfl
  · rw [UpdateSensorCachedRanges]
    by_cases hcl : (if today ≤ t then today - 1 else t) < f
    · rw [if_pos hcl]; exact hsr
    · rw [if_neg hcl]
      simp only
      intro e he r hr
      rcases setRanges_mem c.sensorCachedRanges sid
        (MergeRanges (c.rangesOf sid ++ [⟨f, if today ≤ t then today - 1 else t⟩])) e he
        with hold | hnew
      · exact hsr e hold r hr
      · subst hnew
        have hb := MergeRanges_stop_bound
          (c.rangesOf sid ++ [⟨f, if today ≤ t then today - 1 else t⟩]) (today - 1) ?_ r hr
        · omega
        · intro x hx
          rcases List.mem_append.mp hx with hx | hx
          · rw [Cache.rangesOf] at hx
            rcases hfind : c.sensorCachedRanges.find? (fun e2 => e2.1 == sid) with _ | e2
            · rw [hfind] at hx
              exact absurd hx (List.not_mem_nil x)
            · rw [hfind] at hx
              have := hsr e2 (List.mem_of_find?_eq_some hfind) x hx
              omega
          · rcases List.mem_singleton.mp hx with rfl
            simp only
            by_cases hc : today ≤ t
            · rw [if_pos hc]
            · rw [if_neg hc]; omega
  · intro pt hpt
    rw [GetSensorDataC] at hpt
    have hmain : ∀ p ∈ (daysFromTo f2 t2).foldl
        (fun acc d => acc ++ bucketGet c.sensorData (sid, d)) ([] : List SensorData),
        dayOf p.date < today := by
      refine foldl_preserves_mem
        (fun acc : List SensorData => ∀ p ∈ acc, dayOf p.date < today)
        (daysFromTo f2 t2) _ ?_ [] (by simp)
      intro acc d hd hacc p hp
      rcases List.mem_append.mp hp with hp | hp
      · exact hacc p hp
      · obtain ⟨e, he, hk, hpe⟩ := bucketGet_mem c.sensorData (sid, d) p hp
        have h1 := hsb e he p hpe
        have h2 := (mem_daysFromTo f2 t2 d hd).2
        rw [hk] at h1
        simp only at h1
        omega
    exact hmain pt hpt

/-- C3 witness: on an empty cache with today = 10, marking `[0, 100]`
cached yields only ranges ending before day 10, and retrieval over
`[0, 9]` yields no reading dated day 10 or later. -/
theorem cache_never_contains_today_witness :
    (∀ r ∈ (UpdateZevCachedRanges 10 ⟨[], [], [], []⟩ 0 100).zevCachedRanges, r.stop < 10) ∧
    (∀ pt ∈ GetSensorDataC ⟨[], [], [], []⟩ "b" 0 9, dayOf pt.date < 10) :=
  have h := cache_never_contains_today 10 ⟨[], [], [], []⟩ [⟨"s", [⟨5, 0, 0⟩]⟩] "b"
    [⟨5, 0, 0⟩] 0 100 0 9 (by simp) (by simp) (by simp) (by simp) (by decide)
  ⟨h.2.2.1, h.2.2.2.2.2.2.2⟩

/-- The ZEV gap-fetch loop fails with `e` exactly when the first failing
gap fetch fails with `e`. -/
theorem fetchZevGaps_error (up : Upstream) (today : Int) :
    ∀ (gaps : List DateRange) (c : Cache) (e : String),
      (fetchZevGaps up today c gaps = .error e ↔
        firstZevFetchError up today false gaps = some e) := by
  intro gaps
  induction gaps with
  | nil =>
    intro c e
    rw [fetchZevGaps, firstZevFetchError]
    simp
  | cons g rest ih =>
    intro c e
    rw [fetchZevGaps, firstZevFetchError]
    rcases hu : up.getZevData (dayStart g.start) (dayEnd g.stop) with e2 | data
    · simp [hu]
    · simp only [hu]
      rcases hr : fetchZevGaps up today
          (UpdateZevCachedRanges today (StoreZevData today c data) g.start g.stop) rest
        with e3 | pair
      · simp only [hr]
        simp [(ih _ e3).mp hr]
      · simp only [hr]
        constructor
        · intro h
          exact absurd h (by simp)
        · intro h
          have h2 := (ih (UpdateZevCachedRanges today (StoreZevData today c data)
            g.start g.stop) e).mpr h
          exact absurd (h2.symm.trans hr) (by simp)

/-- The sensor gap-fetch loop fails with `e` exactly when the first
failing gap fetch fails with `e`. -/
theorem fetchSensorGaps_error (up : Upstream) (today : Int) (sid : String) :
    ∀ (gaps : List DateRange) (c : Cache) (e : String),
      (fetchSensorGaps up today sid c gaps = .error e ↔
        firstSensorFetchError up today sid false gaps = some e) := by
  intro gaps
  induction gaps with
  | nil =>
    intro c e
    rw [fetchSensorGaps, firstSensorFetchError]
    simp
  | cons g rest ih =>
    intro c e
    rw [fetchSensorGaps, firstSensorFetchError]
    rcases hu : up.getSensorData sid (dayStart g.start) (dayEnd g.stop) with e2 | data
    · simp [hu]
    · simp only [hu]
      rcases hr : fetchSensorGaps up today sid
          (UpdateSensorCachedRanges today (StoreSensorData today c sid data) sid g.start g.stop)
          rest with e3 | pair
      · simp only [hr]
        simp [(ih _ e3).mp hr]
      · simp only [hr]
        constructor
        · intro h
          exact absurd h (by simp)
        · intro h
          have h2 := (ih (UpdateSensorCachedRanges today (StoreSensorData today c sid data)
            sid g.start g.stop) e).mpr h
          exact absurd (h2.symm.trans hr) (by simp)

/-- A gap-fetch failure reported with `includesToday = false` is reported
identically whatever `includesToday` is. -/
theorem firstZevFetchError_mono (up : Upstream) (today : Int) (b : Bool) :
    ∀ (gaps : List DateRange) (e : String),
      firstZevFetchError up today false gaps = some e →
      firstZevFetchError up today b gaps = some e := by
  intro gaps
  induction gaps with
  | nil =>
    intro e h
    rw [firstZevFetchError] at h
    simp at h
  | cons g rest ih =>
    intro e h
    rw [firstZevFetchError] at h ⊢
    rcases hu : up.getZevData (dayStart g.start) (dayEnd g.stop) with e2 | data
    · rw [hu] at h; exact h
    · rw [hu] at h
      exact ih e h

/-- When no gap fetch fails, the first upstream error is the today-fetch
error (when today is included). -/
theorem firstZevFetchError_none (up : Upstream) (today : Int) (b : Bool) :
    ∀ (gaps : List DateRange),
      firstZevFetchError up today false gaps = none →
      firstZevFetchError up today b gaps =
        (if b then
          (match up.getZevData (dayStart today) (dayEnd today) with
            | .error e => some e
            | .ok _ => none)
          else none) := by
  intro gaps
  induction gaps with
  | nil =>
    intro _
    rw [firstZevFetchError]
  | cons g rest ih =>
    intro h
    rw [firstZevFetchError] at h ⊢
    rcases hu : up.getZevData (dayStart g.start) (dayEnd g.stop) with e2 | data
    · rw [hu] at h; exact absurd h (by simp)
    · rw [hu] at h
      exact ih h

/-- Sensor analogue of `firstZevFetchError_mono`. -/
theorem firstSensorFetchError_mono (up : Upstream) (today : Int) (sid : String) (b : Bool) :
    ∀ (gaps : List DateRange) (e : String),
      firstSensorFetchError up today sid false gaps = some e →
      firstSensorFetchError up today sid b gaps = some e := by
  intro gaps
  induction gaps with
  | nil =>
    intro e h
    rw [firstSensorFetchError] at h
    simp at h
  | cons g rest ih =>
    intro e h
    rw [firstSensorFetchError] at h ⊢
    rcases hu : up.getSensorData sid (dayStart g.start) (dayEnd g.stop) with e2 | data
    · rw [hu] at h; exact h
    · rw [hu] at h
      exact ih e h

/-- Sensor analogue of `firstZevFetchError_none`. -/
theorem firstSensorFetchError_none (up : Upstream) (today : Int) (sid : String) (b : Bool) :
    ∀ (gaps : List DateRange),
      firstSensorFetchError up today sid false gaps = none →
      firstSensorFetchError up today sid b gaps =
        (if b then
          (match up.getSensorData sid (dayStart today) (dayEnd today) with
            | .error e => some e
            | .ok _ => none)
          else none) := by
  intro gaps
  induction gaps with
  | nil =>
    intro _
    rw [firstSensorFetchError]
  | cons g rest ih =>
    intro h
    rw [firstSensorFetchError] at h ⊢
    rcases hu : up.getSensorData sid (dayStart g.start) (dayEnd g.stop) with e2 | data
    · rw [hu] at h; exact absurd h (by simp)
    · rw [hu] at h
      exact ih h

/-- Evaluation of the cached ZEV fetch: the result never depends on the
save outcome, and it is an error exactly when (and with what) the first
performed upstream fetch fails. -/
theorem cachedGetZevData_eval (up : Upstream) (today : Int) (c : Cache) (fromT toT : Int) :
    (∀ sr, cachedGetZevData up sr today c fromT toT =
      cachedGetZevData up (Except.ok ()) today c fromT toT) ∧
    (∀ e, cachedGetZevData up (Except.ok ()) today c fromT toT = .error e ↔
      firstZevFetchError up today (decide (today ≤ dayOf toT))
        (FindGaps today c.zevCachedRanges (dayOf fromT) (dayOf toT)) = some e) := by
  rcases hg : fetchZevGaps up today c
      (FindGaps today c.zevCachedRanges (dayOf fromT) (dayOf toT)) with e0 | p
  · have hfe : firstZevFetchError up today (decide (today ≤ dayOf toT))
        (FindGaps today c.zevCachedRanges (dayOf fromT) (dayOf toT)) = some e0 :=
      firstZevFetchError_mono up today _ _ e0 ((fetchZevGaps_error up today _ c e0).mp hg)
    constructor
    · intro sr
      rw [cachedGetZevData, cachedGetZevData]
      simp only [hg]
    · intro e
      rw [cachedGetZevData]
      simp only [hg, hfe]
      simp
  · obtain ⟨c1, modified⟩ := p
    have hnone : firstZevFetchError up today false
        (FindGaps today c.zevCachedRanges (dayOf fromT) (dayOf toT)) = none := by
      rcases hfe : firstZevFetchError up today false
          (FindGaps today c.zevCachedRanges (dayOf fromT) (dayOf toT)) with _ | e1
      · rfl
      · have := (fetchZevGaps_error up today _ c e1).mpr hfe
        exact absurd (this.symm.trans hg) (by simp)
    have hrest := firstZevFetchError_none up today (decide (today ≤ dayOf toT)) _ hnone
    by_cases hinc : today ≤ dayOf toT
    · rcases ht : up.getZevData (dayStart today) (dayEnd today) with e1 | tdata
      · constructor
        · intro sr
          rw [cachedGetZevData, cachedGetZevData]
          simp only [hg, if_pos hinc, ht]
        · intro e
          rw [cachedGetZevData]
          simp only [hg, if_pos hinc, ht, hrest]
          simp [hinc]
      · constructor
        · intro sr
          rw [cachedGetZevData, cachedGetZevData]
          simp only [hg, if_pos hinc, ht, ite_self]
          rcases hif : (if modified then sr else Except.ok ()) with e2 | u <;>
            simp only [hif]
        · intro e
          rw [cachedGetZevData]
          simp only [hg, if_pos hinc, ht, ite_self, hrest]
          simp
    · constructor
      · intro sr
        rw [cachedGetZevData, cachedGetZevData]
        simp only [hg, if_neg hinc, ite_self]
        rcases hif : (if modified then sr else Except.ok ()) with e2 | u <;>
          simp only [hif]
      · intro e
        rw [cachedGetZevData]
        simp only [hg, if_neg hinc, ite_self, hrest]
        simp [hinc]

/-- Evaluation of the cached sensor fetch, as for the ZEV path. -/
theorem cachedGetSensorData_eval (up : Upstream) (today : Int) (c : Cache) (sid : String)
    (fromT toT : Int) :
    (∀ sr, cachedGetSensorData up sr today c sid fromT toT =
      cachedGetSensorData up (Except.ok ()) today c sid fromT toT) ∧
    (∀ e, cachedGetSensorData up (Except.ok ()) today c sid fromT toT = .error e ↔
      firstSensorFetchError up today sid (decide (today ≤ dayOf toT))
        (FindGaps today (c.rangesOf sid) (dayOf fromT) (dayOf toT)) = some e) := by
  rcases hg : fetchSensorGaps up today sid c
      (FindGaps today (c.rangesOf sid) (dayOf fromT) (dayOf toT)) with e0 | p
  · have hfe : firstSensorFetchError up today sid (decide (today ≤ dayOf toT))
        (FindGaps today (c.rangesOf sid) (dayOf fromT) (dayOf toT)) = some e0 :=
      firstSensorFetchError_mono up today sid _ _ e0
        ((fetchSensorGaps_error up today sid _ c e0).mp hg)
    constructor
    · intro sr
      rw [cachedGetSensorData, cachedGetSensorData]
      simp only [hg]
    · intro e
      rw [cachedGetSensorData]
      simp only [hg, hfe]
      simp
  · obtain ⟨c1, modified⟩ := p
    have hnone : firstSensorFetchError up today sid false
        (FindGaps today (c.rangesOf sid) (dayOf fromT) (dayOf toT)) = none := by
      rcases hfe : firstSensorFetchError up today sid false
          (FindGaps today (c.rangesOf sid) (dayOf fromT) (dayOf toT)) with _ | e1
      · rfl
      · have := (fetchSensorGaps_error up today sid _ c e1).mpr hfe
        exact absurd (this.symm.trans hg) (by simp)
    have hrest := firstSensorFetchError_none up today sid (decide (today ≤ dayOf toT)) _ hnone
    by_cases hinc : today ≤ dayOf toT
    · rcases ht : up.getSensorData sid (dayStart today) (dayEnd today) with e1 | tdata
      · constructor
        · intro sr
          rw [cachedGetSensorData, cachedGetSensorData]
          simp only [hg, if_pos hinc, ht]
        · intro e
          rw [cachedGetSensorData]
          simp only [hg, if_pos hinc, ht, hrest]
          simp [hinc]
      · constructor
        · intro sr
          rw [cachedGetSensorData, cachedGetSensorData]
          simp only [hg, if_pos hinc, ht, ite_self]
          rcases hif : (if modified then sr else Except.ok ()) with e2 | u <;>
            simp only [hif]
        · intro e
          rw [cachedGetSensorData]
          simp only [hg, if_pos hinc, ht, ite_self, hrest]
          simp
    · constructor
      · intro sr
        rw [cachedGetSensorData, cachedGetSensorData]
        simp only [hg, if_neg hinc, ite_self]
        rcases hif : (if modified then sr else Except.ok ()) with e2 | u <;>
          simp only [hif]
      · intro e
        rw [cachedGetSensorData]
        simp only [hg, if_neg hinc, ite_self, hrest]
        simp [hinc]

/-- C10: in the cache-backed fetcher, a failure of any performed upstream
fetch (gap fetch or fresh today fetch) makes the whole call return exactly
that (first) error, for both the ZEV and the per-sensor path; the outcome
never depends on whether saving the cache succeeds — in particular, when
every upstream fetch succeeds, the call returns the merged result even if
the save fails. -/
theorem cached_fetch_error_policy (up : Upstream) (saveResult : Except String Unit)
    (today : Int) (c : Cache) (sid : String) (fromT toT : Int) :
    (cachedGetZevData up saveResult today c fromT toT =
      cachedGetZevData up (Except.ok ()) today c fromT toT) ∧
    (∀ e, cachedGetZevData up saveResult today c fromT toT = .error e ↔
      firstZevFetchError up today (decide (today ≤ dayOf toT))
        (FindGaps today c.zevCachedRanges (dayOf fromT) (dayOf toT)) = some e) ∧
    (∀ s, firstZevFetchError up today (decide (today ≤ dayOf toT))
        (FindGaps today c.zevCachedRanges (dayOf fromT) (dayOf toT)) = none →
      ∃ res, cachedGetZevData up (Except.error s) today c fromT toT = .ok res) ∧
    (cachedGetSensorData up saveResult today c sid fromT toT =
      cachedGetSensorData up (Except.ok ()) today c sid fromT toT) ∧
    (∀ e, cachedGetSensorData up saveResult today c sid fromT toT = .error e ↔
      firstSensorFetchError up today sid (decide (today ≤ dayOf toT))
        (FindGaps today (c.rangesOf sid) (dayOf fromT) (dayOf toT)) = some e) ∧
    (∀ s, firstSensorFetchError up today sid (decide (today ≤ dayOf toT))
        (FindGaps today (c.rangesOf sid) (dayOf fromT) (dayOf toT)) = none →
      ∃ res, cachedGetSensorData up (Except.error s) today c sid fromT toT = .ok res) := by
  obtain ⟨hind, herr⟩ := cachedGetZevData_eval up today c fromT toT
  obtain ⟨hinds, herrs⟩ := cachedGetSensorData_eval up today c sid fromT toT
  refine ⟨hind saveResult, fun e => (by rw [hind saveResult]; exact herr e), fun s hs => ?_,
    hinds saveResult, fun e => (by rw [hinds saveResult]; exact herrs e), fun s hs => ?_⟩
  · rcases hv : cachedGetZevData up (Except.ok ()) today c fromT toT with e1 | r
    · rw [(herr e1).mp hv] at hs
      exact absurd hs (by simp)
    · exact ⟨r, (hind (Except.error s)).trans hv⟩
  · rcases hv : cachedGetSensorData up (Except.ok ()) today c sid fromT toT with e1 | r
    · rw [(herrs e1).mp hv] at hs
      exact absurd hs (by simp)
    · exact ⟨r, (hinds (Except.error s)).trans hv⟩

/-- C10 witness: with an always-succeeding upstream and a failing save,
the ZEV call still succeeds and equals the call with a successful save;
with an always-failing upstream, the call returns that upstream error. -/
theorem cached_fetch_error_policy_witness :
    (cachedGetZevData ⟨fun _ _ => Except.ok [], fun _ _ _ => Except.ok []⟩
        (Except.error "disk full") 10 ⟨[], [], [], []⟩ 0 2000000 =
      cachedGetZevData ⟨fun _ _ => Except.ok [], fun _ _ _ => Except.ok []⟩
        (Except.ok ()) 10 ⟨[], [], [], []⟩ 0 2000000) ∧
    (∃ res, cachedGetZevData ⟨fun _ _ => Except.ok [], fun _ _ _ => Except.ok []⟩
        (Except.error "disk full") 10 ⟨[], [], [], []⟩ 0 2000000 = .ok res) ∧
    cachedGetZevData ⟨fun _ _ => Except.error "boom", fun _ _ _ => Except.error "boom"⟩
        (Except.ok ()) 10 ⟨[], [], [], []⟩ 0 2000000 = .error "boom" :=
  have h1 := cached_fetch_error_policy ⟨fun _ _ => Except.ok [], fun _ _ _ => Except.ok []⟩
    (Except.error "disk full") 10 ⟨[], [], [], []⟩ "b" 0 2000000
  have h2 := cached_fetch_error_policy
    ⟨fun _ _ => Except.error "boom", fun _ _ _ => Except.error "boom"⟩
    (Except.ok ()) 10 ⟨[], [], [], []⟩ "b" 0 2000000
  ⟨h1.1, h1.2.2.1 "disk full" (by decide), (h2.2.1 "boom").mpr (by decide)⟩

end Zevalizer
